import Mathlib

/-!
Verification of the client-side HEIC conversion orchestrator of this
repository: the conversion queue (`src/unnamed/part_006`, mirrored in
`src/src/utils/conversion-queue.js`), the memory manager
(`src/src/utils/memory-manager.js`), the single-file conversion worker
(`src/unnamed/part_005`) and the batch conversion worker
(`src/src/workers/batch-converter.worker.js`).

Each JavaScript function relevant to the checked properties is embedded as a
computable Lean definition that follows the source line by line.  JavaScript
`Map` and `Set` are modelled as association lists / lists in insertion order
(which is their iteration order); object mutation becomes explicit state
passing; `postMessage` and event emission become lists of emitted
messages/events returned alongside the new state; `setTimeout` callbacks
become explicit pending-timer values that a separate step fires.
-/

namespace HeicConv

/-! ## Memory manager (`src/src/utils/memory-manager.js`) -/

/-- A tracked blob: identity plus byte size (`blob.size`). -/
structure Blob where
  bid : Nat
  size : Nat
deriving DecidableEq, Repr

/-- State of `MemoryManager`.  `activeBlobs` is a JS `Set` kept in insertion
order; `objectURLs` likewise.  We model the environment without
`performance.memory`, so `getCurrentMemoryUsage()` returns
`currentMemoryEstimate` (the tracked estimate), and `maxMemoryUsage` is the
fixed fallback ceiling.  `currentMemoryEstimate` is an integer (JS numbers can
go negative on unmatched untracking). -/
structure MemState where
  activeBlobs : List Blob
  objectURLs : List Nat
  maxMemoryUsage : Nat
  currentMemoryEstimate : Int
deriving DecidableEq, Repr

/-- `getCurrentMemoryUsage()` without `performance.memory`: the tracked
estimate. -/
def getCurrentMemoryUsage (s : MemState) : Int :=
  s.currentMemoryEstimate

/-- JS `Set.add`: appends only when not already present. -/
def setAdd (l : List Blob) (b : Blob) : List Blob :=
  if b ∈ l then l else l ++ [b]

/-- `registerBlob(blob)`: add to the tracked set and bump the estimate by
`blob.size` (the `instanceof Blob` guard always holds in the model). -/
def registerBlob (s : MemState) (b : Blob) : MemState :=
  { s with
    activeBlobs := setAdd s.activeBlobs b
    currentMemoryEstimate := s.currentMemoryEstimate + b.size }

/-- `unregisterBlob(blob)`: only when tracked, remove it and subtract its
size. -/
def unregisterBlob (s : MemState) (b : Blob) : MemState :=
  if b ∈ s.activeBlobs then
    { s with
      activeBlobs := s.activeBlobs.erase b
      currentMemoryEstimate := s.currentMemoryEstimate - b.size }
  else s

/-- `revokeObjectURL(url)`: drop a tracked URL (the browser-side revocation is
a side effect outside the state). -/
def revokeObjectURL (s : MemState) (url : Nat) : MemState :=
  if url ∈ s.objectURLs then
    { s with objectURLs := s.objectURLs.erase url }
  else s

/-- `triggerCleanup()`, blob half: `keepCount = floor(size * 0.3)`; iterating
the set in insertion order, every blob beyond the first `keepCount` is
collected into `blobsToRemove` and unregistered.  (`0.3 * n` is exact enough
in JS doubles for the sizes in play; we use `3 * n / 10`.) -/
def cleanupBlobs (s : MemState) : MemState :=
  let keepCount := 3 * s.activeBlobs.length / 10
  let blobsToRemove := s.activeBlobs.drop keepCount
  blobsToRemove.foldl unregisterBlob s

/-- `triggerCleanup()`, URL half: revoke every tracked URL for which
`document.querySelector` finds no `img` element using it; `domImgSrcs` is the
list of `src` attributes of the `img` elements currently in the document. -/
def cleanupURLs (domImgSrcs : List Nat) (s : MemState) : MemState :=
  let urlsToRevoke := s.objectURLs.filter (fun u => !domImgSrcs.contains u)
  urlsToRevoke.foldl revokeObjectURL s

/-- `triggerCleanup()`: old blobs first, then orphaned object URLs. -/
def triggerCleanup (domImgSrcs : List Nat) (s : MemState) : MemState :=
  cleanupURLs domImgSrcs (cleanupBlobs s)

/-- `hasAvailableMemory(requiredMemory)`: computes
`projected = currentUsage + required`; runs `triggerCleanup()` when
`projected > maxMemoryUsage * gcThreshold` (threshold `0.8`, modelled by the
exact comparison `5 * projected > 4 * max`); returns
`projected < maxMemoryUsage`, computed from the pre-cleanup `projected`. -/
def hasAvailableMemory (domImgSrcs : List Nat) (s : MemState)
    (requiredMemory : Nat) : Bool × MemState :=
  let projected : Int := getCurrentMemoryUsage s + requiredMemory
  let s' := if 5 * projected > 4 * (s.maxMemoryUsage : Int)
    then triggerCleanup domImgSrcs s else s
  (projected < (s.maxMemoryUsage : Int), s')

/-! ## Retry policy of the conversion queue (`handleTaskError`,
`src/unnamed/part_006` lines 692–732, identical logic in
`src/src/utils/conversion-queue.js` lines 357–386) -/

/-- Task lifecycle states (`task.status`). -/
inductive TaskStatus
  | queued
  | processing
  | completed
  | failed
  | cancelled
deriving DecidableEq, Repr

namespace Retry

/-- The retry-relevant slice of a queue task: its `retries` counter and
`status`. -/
structure RetryTask where
  retries : Nat
  status : TaskStatus
deriving DecidableEq, Repr

/-- `handleTaskError(task, error)`: increments `task.retries`; if the new
count is still `< maxRetries` it schedules a requeue after
`retryDelay * task.retries` (linear backoff) and emits no terminal event;
otherwise it marks the task failed and emits one `error` event.  Returns the
updated task, the scheduled requeue delay (if any) and the number of `error`
events emitted. -/
def handleTaskError (maxRetries retryDelay : Nat) (t : RetryTask) :
    RetryTask × Option Nat × Nat :=
  let t' : RetryTask := { t with retries := t.retries + 1 }
  if t'.retries < maxRetries then
    (t', some (retryDelay * t'.retries), 0)
  else
    ({ t' with status := TaskStatus.failed }, none, 1)

/-- Accumulated observation of a task all of whose conversion attempts fail:
total attempts, the backoff delays of the scheduled requeues, the number of
terminal `error` events, and the final task state. -/
structure FailTrace where
  attempts : Nat
  delays : List Nat
  errorEvents : Nat
  final : RetryTask
deriving DecidableEq, Repr

/-- Drives a task whose attempts always end in a worker-reported error:
each attempt ends in `handleTaskError`; while a requeue is scheduled, the
timer fires (setting `status` back to `queued`) and the next attempt fails
again.  `fuel` bounds the recursion; `maxRetries + 1` is always enough. -/
def failingRunAux (maxRetries retryDelay : Nat) :
    Nat → RetryTask → FailTrace
  | 0, t => { attempts := 0, delays := [], errorEvents := 0, final := t }
  | fuel + 1, t =>
    let step := handleTaskError maxRetries retryDelay t
    match step.2.1 with
    | some d =>
      let rest := failingRunAux maxRetries retryDelay fuel
        { retries := t.retries + 1, status := TaskStatus.queued }
      { attempts := rest.attempts + 1, delays := d :: rest.delays,
        errorEvents := step.2.2 + rest.errorEvents, final := rest.final }
    | none =>
      { attempts := 1, delays := [], errorEvents := step.2.2, final := step.1 }

/-- A fresh task (zero retries) whose conversions always fail, run to its
terminal state. -/
def failingRun (maxRetries retryDelay : Nat) : FailTrace :=
  failingRunAux maxRetries retryDelay (maxRetries + 1)
    { retries := 0, status := TaskStatus.processing }

end Retry

/-! ## `addFile` validation (`src/unnamed/part_006` lines 203–251) -/

/-- The file argument of `addFile`: `name` is `none` when the property is
missing (`!file.name` is also true for the empty string); `size` a number. -/
structure FileInfo where
  name : Option String
  size : Int
deriving DecidableEq, Repr

/-- The options argument of `addFile`; `none` models an absent property. -/
structure ConvOptions where
  targetType : Option String
  quality : Option Int
  priority : Option Int
deriving DecidableEq, Repr

/-- JS `String.toLowerCase`, modelled on the character list (ASCII range;
sufficient for the format names compared here). -/
def jsToLower (s : String) : String :=
  ⟨s.data.map (fun c =>
    if 'A' ≤ c ∧ c ≤ 'Z' then Char.ofNat (c.toNat + 32) else c)⟩

/-- `const validTargetTypes = ['jpeg', 'jpg', 'png', 'webp']`. -/
def validTargetTypes : List String := ["jpeg", "jpg", "png", "webp"]

/-- `options.targetType || 'jpeg'` (the empty string is falsy). -/
def rawTargetType (o : ConvOptions) : String :=
  match o.targetType with
  | none => "jpeg"
  | some s => if s = "" then "jpeg" else s

/-- `Math.min(100, Math.max(1, options.quality || 90))` (0 is falsy). -/
def clampedQuality (o : ConvOptions) : Int :=
  let qRaw : Int := match o.quality with
    | none => 90
    | some q => if q = 0 then 90 else q
  min 100 (max 1 qRaw)

/-- A task built by `addFile`.  The stored `options` object is
`{ targetType: lowercased, quality: clamped, ...options }`: the trailing
spread copies the caller's own properties last, so a caller-provided
`targetType`/`quality` overrides the normalized values. -/
structure SingleTask where
  id : Nat
  targetType : String
  quality : Int
  priority : Int
  retries : Nat
  status : TaskStatus
deriving DecidableEq, Repr

/-- `addFile(file, options)` up to the point where the task is registered
and enqueued: each validation `throw` becomes `Except.error` (thrown before
any task is created or enqueued, as in the source).  On success it returns
the task that is registered with the progress tracker and pushed into the
queue. -/
def addFile (taskId : Nat) (file : FileInfo) (o : ConvOptions) :
    Except String SingleTask :=
  if file.name = none ∨ file.name = some "" then
    Except.error "File must have a valid name"
  else if file.size < 0 then
    Except.error "File must have a valid size"
  else
    let targetType := rawTargetType o
    let quality := clampedQuality o
    if !validTargetTypes.contains (jsToLower targetType) then
      Except.error "Invalid target type"
    else
      Except.ok
        { id := taskId
          targetType :=
            match o.targetType with
            | none => jsToLower targetType
            | some s => s
          quality :=
            match o.quality with
            | none => quality
            | some q => q
          priority := o.priority.getD 0
          retries := 0
          status := TaskStatus.queued }

/-! ## Single-file conversion worker (`src/unnamed/part_005`) -/

/-- Conversion stages reported in progress messages. -/
inductive Stage
  | initializing
  | loading
  | decoding
  | encoding
  | finalizing
  | complete
deriving DecidableEq, Repr

namespace SingleWorker

/-- Messages the single-file worker posts while handling one `convert`
command: `progress` messages, the typed `cancelled` message posted directly
by the `cancel` command handler, and the final untyped result object
`{ success, cancelled?, ... }` posted when the conversion coroutine finishes
or its catch block runs. -/
inductive Msg
  | progress (percent : ℚ) (stage : Stage)
  | typedCancelled
  | result (success : Bool) (cancelled : Bool)
deriving DecidableEq, Repr

/-- The percent estimate emitted by the decoding-phase interval callback at
elapsed time `e` ms: `Math.min(50, 20 + elapsed / 100)`. -/
def tickVal (e : Nat) : ℚ :=
  min 50 (20 + (e : ℚ) / 100)

/-- The progress messages of the interval callback, for the fires at the
given elapsed times (the callback is guarded by `!isCancelled`, so `ticks`
lists exactly the fires that happened before any cancellation). -/
def tickMsgs (ticks : List Nat) : List Msg :=
  ticks.map (fun e => Msg.progress (tickVal e) Stage.decoding)

/-- The ordered message stream of one `convert` command.  `decodeOk` is the
outcome of the decode/encode library call; `ticks` the elapsed times of the
interval fires; `cancelAt = some k` means the `cancel` command is processed
while the coroutine is suspended at its k-th await (1: the loading delay,
2: the decode call, 3: the first encoding delay, 4: the second encoding
delay) — the cancel handler posts the typed cancelled message at that point
and sets the flag, and the coroutine throws at its next cancellation check,
whose catch posts the cancelled result. -/
def singleRun (decodeOk : Bool) (ticks : List Nat) (cancelAt : Option Nat) :
    List Msg :=
  [Msg.progress 0 Stage.loading, Msg.progress 10 Stage.loading] ++
  (if cancelAt = some 1 then [Msg.typedCancelled, Msg.result false true] else
    [Msg.progress 20 Stage.loading, Msg.progress 20 Stage.decoding] ++
    tickMsgs ticks ++
    (if cancelAt = some 2 then
      Msg.typedCancelled ::
        (if decodeOk then [Msg.result false true] else [Msg.result false false])
    else if !decodeOk then [Msg.result false false] else
      [Msg.progress 60 Stage.decoding, Msg.progress 60 Stage.encoding] ++
      (if cancelAt = some 3 then [Msg.typedCancelled, Msg.result false true] else
        [Msg.progress 80 Stage.encoding] ++
        (if cancelAt = some 4 then [Msg.typedCancelled, Msg.result false true] else
          [Msg.progress 90 Stage.encoding, Msg.progress 90 Stage.finalizing,
           Msg.progress 100 Stage.complete, Msg.result true false]))))

/-- The percent values of the progress messages, in emission order. -/
def percents : List Msg → List ℚ
  | [] => []
  | Msg.progress p _ :: rest => p :: percents rest
  | _ :: rest => percents rest

/-- Terminal messages: everything except progress (the success / error /
cancelled result and the typed cancelled acknowledgment). -/
def isTerminal (m : Msg) : Bool :=
  match m with
  | Msg.progress _ _ => false
  | _ => true

/-- Number of terminal messages in a stream. -/
def countTerminal (msgs : List Msg) : Nat :=
  msgs.countP isTerminal

end SingleWorker

/-! ## Batch conversion worker (`src/src/workers/batch-converter.worker.js`) -/

namespace BatchWorker

/-- Messages the batch worker posts while handling one `convert-batch`
command.  `progress` is a `batch-progress` message (`file = none` for the
initial and final overall updates); the two terminal messages carry the
gathered per-file results and errors, identified here by file index. -/
inductive BMsg
  | progress (percent : ℚ) (file : Option Nat) (stage : Stage)
  | batchCancelled (results errors : List Nat)
  | batchComplete (results errors : List Nat)
deriving DecidableEq, Repr

/-- `calculateBatchProgress(fileIndex, fileProgress)`:
`min(100, fileIndex / totalFiles * 100 + fileProgress / totalFiles)`. -/
def calculateBatchProgress (total fileIdx : Nat) (fileProgress : ℚ) : ℚ :=
  min 100 ((fileIdx : ℚ) / (total : ℚ) * 100 + fileProgress / (total : ℚ))

/-- The progress messages of file `i` when its conversion succeeds:
stages loading(0), loading(20), decoding(40), encoding(70), finalizing(90),
complete(100). -/
def fileMsgsOk (total i : Nat) : List BMsg :=
  [BMsg.progress (calculateBatchProgress total i 0) (some i) Stage.loading,
   BMsg.progress (calculateBatchProgress total i 20) (some i) Stage.loading,
   BMsg.progress (calculateBatchProgress total i 40) (some i) Stage.decoding,
   BMsg.progress (calculateBatchProgress total i 70) (some i) Stage.encoding,
   BMsg.progress (calculateBatchProgress total i 90) (some i) Stage.finalizing,
   BMsg.progress (calculateBatchProgress total i 100) (some i) Stage.complete]

/-- The progress messages of file `i` when the converter call throws: the
catch block records the error and returns before the encoding updates. -/
def fileMsgsFail (total i : Nat) : List BMsg :=
  [BMsg.progress (calculateBatchProgress total i 0) (some i) Stage.loading,
   BMsg.progress (calculateBatchProgress total i 20) (some i) Stage.loading,
   BMsg.progress (calculateBatchProgress total i 40) (some i) Stage.decoding]

/-- Messages around a `cancel-batch` command processed while file `i` is in
flight, suspended at await `s` (1: the post-start loading delay — the
unguarded `sendProgress(…, 20)` after it still fires; 2: the converter
call — the check after it throws before any further progress; 3: the
encoding delay on the success path — the finalizing/complete updates after
it are unguarded and still fire).  The `batch-cancelled` message posted by
the cancel handler carries the results and errors gathered so far. -/
def cancelMsgs (total i s : Nat) (results errors : List Nat) : List BMsg :=
  if s = 1 then
    [BMsg.progress (calculateBatchProgress total i 0) (some i) Stage.loading,
     BMsg.batchCancelled results errors,
     BMsg.progress (calculateBatchProgress total i 20) (some i) Stage.loading]
  else if s = 2 then
    [BMsg.progress (calculateBatchProgress total i 0) (some i) Stage.loading,
     BMsg.progress (calculateBatchProgress total i 20) (some i) Stage.loading,
     BMsg.progress (calculateBatchProgress total i 40) (some i) Stage.decoding,
     BMsg.batchCancelled results errors]
  else
    [BMsg.progress (calculateBatchProgress total i 0) (some i) Stage.loading,
     BMsg.progress (calculateBatchProgress total i 20) (some i) Stage.loading,
     BMsg.progress (calculateBatchProgress total i 40) (some i) Stage.decoding,
     BMsg.progress (calculateBatchProgress total i 70) (some i) Stage.encoding,
     BMsg.batchCancelled results errors,
     BMsg.progress (calculateBatchProgress total i 90) (some i) Stage.finalizing,
     BMsg.progress (calculateBatchProgress total i 100) (some i) Stage.complete]

/-- Whether the cancel command is processed while file `i` is in flight. -/
def isCancelAt (cancelAt : Option (Nat × Nat)) (i : Nat) : Bool :=
  match cancelAt with
  | some (c, _) => c == i
  | none => false

/-- The sequential file loop of `convert-batch`: `outcomes` lists, per file,
whether its converter call succeeds; `i` is the index of the current file,
`results`/`errors` the accumulators.  `cancelAt = some (c, s)` places the
cancel command during file `c` at suspension `s`; the loop then breaks,
recording the cancellation error (or the still-completed result for `s = 3`)
after the `batch-cancelled` message was posted.  Returns the messages, the
final accumulators, and whether the run was cancelled. -/
def runFiles (total : Nat) (cancelAt : Option (Nat × Nat)) :
    List Bool → Nat → List Nat → List Nat →
    List BMsg × List Nat × List Nat × Bool
  | [], _, results, errors => ([], results, errors, false)
  | ok :: rest, i, results, errors =>
    if isCancelAt cancelAt i then
      let s := (cancelAt.map Prod.snd).getD 0
      (cancelMsgs total i s results errors,
       if s = 3 then results ++ [i] else results,
       if s = 3 then errors else errors ++ [i],
       true)
    else
      let fm := if ok then fileMsgsOk total i else fileMsgsFail total i
      let results' := if ok then results ++ [i] else results
      let errors' := if ok then errors else errors ++ [i]
      let r := runFiles total cancelAt rest (i + 1) results' errors'
      (fm ++ r.1, r.2)

/-- One full `convert-batch` run: the initial overall progress message, the
file loop, and — only when not cancelled — the final overall progress
message and the `batch-complete` terminal. -/
def batchRun (outcomes : List Bool) (cancelAt : Option (Nat × Nat)) :
    List BMsg :=
  let total := outcomes.length
  let r := runFiles total cancelAt outcomes 0 [] []
  BMsg.progress 0 none Stage.initializing :: r.1 ++
    (if r.2.2.2 then []
     else [BMsg.progress 100 none Stage.complete,
           BMsg.batchComplete r.2.1 r.2.2.1])

/-- The percent values of the batch progress messages, in emission order. -/
def bPercents : List BMsg → List ℚ
  | [] => []
  | BMsg.progress p _ _ :: rest => p :: bPercents rest
  | _ :: rest => bPercents rest

/-- Terminal batch messages (`batch-complete` / `batch-cancelled`). -/
def bIsTerminal (m : BMsg) : Bool :=
  match m with
  | BMsg.progress _ _ _ => false
  | _ => true

/-- Whether a stream consists of progress messages followed by exactly one
terminal message, with nothing after it. -/
def progressThenOneTerminal (msgs : List BMsg) : Bool :=
  msgs.dropLast.all (fun m => !bIsTerminal m) &&
    (match msgs.getLast? with
     | some m => bIsTerminal m
     | none => false)

/-- File indices whose conversion was started (a `loading` progress message
was sent for them). -/
def startedFiles : List BMsg → List Nat
  | [] => []
  | BMsg.progress _ (some i) Stage.loading :: rest => i :: startedFiles rest
  | _ :: rest => startedFiles rest

end BatchWorker

/-! ## Conversion queue orchestrator (`src/unnamed/part_006`): scheduling,
worker pools, cancellation, retry requeues -/

namespace Queue

/-- Worker/task kind: the two worker pools are not interchangeable. -/
inductive WKind
  | single
  | batch
deriving DecidableEq, Repr

/-- The scheduling-relevant fields of a queue task.  `seq` is the submission
order (the `addedAt` tiebreaker surrogate); payload and options live in the
validation model above. -/
structure Task where
  id : Nat
  kind : WKind
  priority : Int
  seq : Nat
  retries : Nat
  status : TaskStatus
deriving DecidableEq, Repr

/-- A pooled worker (`worker.metadata`): identity, kind, `busy` flag and the
`taskId` back-reference. -/
structure Slot where
  wid : Nat
  kind : WKind
  busy : Bool
  taskId : Option Nat
deriving DecidableEq, Repr

/-- Events emitted to subscribers. -/
inductive Ev
  | cancelled (tid : Nat)
  | error (tid : Nat)
  | complete (tid : Nat)
deriving DecidableEq, Repr

/-- Queue state: configuration, the pending `queue`, the `activeWorkers` map
(as an association list in `Map` insertion order, keyed by the task), the two
worker pools, the pause/destroy flags, and the id counters (`generateTaskId`
produces unique ids; worker identity is JS object identity, modelled by
`wid`). -/
structure QState where
  maxConcurrent : Nat
  maxWorkers : Nat
  maxRetries : Nat
  retryDelay : Nat
  queue : List Task
  active : List (Task × Nat)
  singlePool : List Slot
  batchPool : List Slot
  isPaused : Bool
  isDestroyed : Bool
  nextWid : Nat
  nextTaskId : Nat
deriving DecidableEq, Repr

/-- `activeWorkers.get(taskId)`. -/
def activeLookup (a : List (Task × Nat)) (tid : Nat) : Option (Task × Nat) :=
  a.find? (fun e => e.1.id == tid)

/-- `activeWorkers.set(taskId, entry)`: replaces in place when present
(preserving `Map` insertion order), else appends. -/
def activeSet (a : List (Task × Nat)) (t : Task) (wid : Nat) :
    List (Task × Nat) :=
  if (a.find? (fun e => e.1.id == t.id)).isSome then
    a.map (fun e => if e.1.id == t.id then (t, wid) else e)
  else a ++ [(t, wid)]

/-- `activeWorkers.delete(taskId)`. -/
def activeDelete (a : List (Task × Nat)) (tid : Nat) : List (Task × Nat) :=
  a.filter (fun e => e.1.id != tid)

/-- The pool of the given kind. -/
def poolOf (s : QState) (k : WKind) : List Slot :=
  match k with
  | WKind.batch => s.batchPool
  | WKind.single => s.singlePool

/-- Mutation of one worker object, reflected in whichever pool holds it
(worker identity is `wid`; creation makes wids unique). -/
def updateSlot (p : List Slot) (wid : Nat) (f : Slot → Slot) : List Slot :=
  p.map (fun w => if w.wid == wid then f w else w)

/-- Apply a worker-object mutation in both pools (only the pool holding the
wid changes). -/
def updateWorker (s : QState) (wid : Nat) (f : Slot → Slot) : QState :=
  { s with
    singlePool := updateSlot s.singlePool wid f
    batchPool := updateSlot s.batchPool wid f }

/-- `createWorker(type)`: a fresh non-busy worker appended to its pool. -/
def createWorker (s : QState) (k : WKind) : Slot × QState :=
  let w : Slot := { wid := s.nextWid, kind := k, busy := false, taskId := none }
  match k with
  | WKind.batch =>
    (w, { s with batchPool := s.batchPool ++ [w], nextWid := s.nextWid + 1 })
  | WKind.single =>
    (w, { s with singlePool := s.singlePool ++ [w], nextWid := s.nextWid + 1 })

/-- `getAvailableWorker(type)`: first non-busy worker of the pool, else a
fresh one while the pool is below `maxWorkers`, else none. -/
def getAvailableWorker (s : QState) (k : WKind) : Option Slot × QState :=
  match (poolOf s k).find? (fun w => !w.busy) with
  | some w => (some w, s)
  | none =>
    if (poolOf s k).length < s.maxWorkers then
      let r := createWorker s k
      (some r.1, r.2)
    else (none, s)

/-- `executeTask(task, worker)`: mark the worker busy with the task id,
record the pair in `activeWorkers`, set the task status to processing. -/
def executeTask (s : QState) (t : Task) (w : Slot) : QState :=
  let s1 := updateWorker s w.wid
    (fun sl => { sl with busy := true, taskId := some t.id })
  { s1 with
    active := activeSet s1.active { t with status := TaskStatus.processing } w.wid }

/-- The `processQueue` while-loop, one iteration per fuel unit
(`s.queue.length` fuel suffices: every iteration shifts the queue).
Returns the new state and the dispatches performed, each recording the
dispatched task (as it stood in the queue) and the worker slot it was
dispatched to (as it stood at dispatch time). -/
def processQueueAux : Nat → QState → QState × List (Task × Slot)
  | 0, s => (s, [])
  | fuel + 1, s =>
    if 0 < s.queue.length ∧ s.active.length < s.maxConcurrent ∧
        ¬s.isPaused ∧ ¬s.isDestroyed then
      match s.queue with
      | [] => (s, [])
      | t :: rest =>
        let s1 := { s with queue := rest }
        match getAvailableWorker s1 t.kind with
        | (none, s2) => ({ s2 with queue := t :: s2.queue }, [])
        | (some w, s2) =>
          let s3 := executeTask s2 t w
          let r := processQueueAux fuel s3
          (r.1, (t, w) :: r.2)
    else (s, [])

/-- `processQueue()`. -/
def processQueue (s : QState) : QState × List (Task × Slot) :=
  processQueueAux s.queue.length s

/-- `releaseWorker(taskId)`: if the task is active, clear its worker's
`busy`/`taskId` and delete the map entry. -/
def releaseWorker (s : QState) (tid : Nat) : QState :=
  match activeLookup s.active tid with
  | some (_, wid) =>
    let s1 := updateWorker s wid (fun sl => { sl with busy := false, taskId := none })
    { s1 with active := activeDelete s1.active tid }
  | none => s

/-- `handleTaskError(task, error)` at the queue level: on a retry, schedule
the requeue timer (the worker is NOT released and the active entry stays);
once `retries` reaches `maxRetries`, release the worker, emit one `error`
event and continue scheduling.  Returns state, events, scheduled timers
`(delay, task)` and the dispatches of the final `processQueue`. -/
def handleTaskErrorQ (s : QState) (t : Task) :
    QState × List Ev × List (Nat × Task) × List (Task × Slot) :=
  let t' : Task := { t with retries := t.retries + 1 }
  if t'.retries < s.maxRetries then
    (s, [], [(s.retryDelay * t'.retries, t')], [])
  else
    let s1 := releaseWorker s t.id
    let r := processQueue s1
    (r.1, [Ev.error t.id], [], r.2)

/-- The retry `setTimeout` callback firing: unless destroyed, set the task
back to queued, unshift it at the END that is the FRONT of the queue, and
process. -/
def timerFire (s : QState) (t : Task) : QState × List (Task × Slot) :=
  if s.isDestroyed then (s, [])
  else
    processQueue { s with queue := { t with status := TaskStatus.queued } :: s.queue }

/-- `handleSuccess` (save for tracker/metrics bookkeeping): release the
worker, emit `complete`, continue scheduling. -/
def handleSuccessQ (s : QState) (t : Task) :
    QState × List Ev × List (Task × Slot) :=
  let s1 := releaseWorker s t.id
  let r := processQueue s1
  (r.1, [Ev.complete t.id], r.2)

/-- A worker `error` message for the task currently mapped to `tid`. -/
def workerErrorQ (s : QState) (tid : Nat) :
    QState × List Ev × List (Nat × Task) × List (Task × Slot) :=
  match activeLookup s.active tid with
  | some (t, _) => handleTaskErrorQ s t
  | none => (s, [], [], [])

/-- A worker `success` message for the task currently mapped to `tid`. -/
def workerSuccessQ (s : QState) (tid : Nat) :
    QState × List Ev × List (Task × Slot) :=
  match activeLookup s.active tid with
  | some (t, _) => handleSuccessQ s t
  | none => (s, [], [])

/-- `cancelTask(taskId)`: a still-queued task is removed with a synchronous
`cancelled` event (returning true); an active task gets a
`cancel`/`cancel-batch` command posted to its worker (returning true, state
untouched); otherwise false.  Returns (result, state, events, commands),
a command being the target wid and the task kind selecting
`cancel` vs `cancel-batch`. -/
def cancelTask (s : QState) (tid : Nat) :
    Bool × QState × List Ev × List (Nat × WKind) :=
  if (s.queue.find? (fun t => t.id == tid)).isSome then
    (true, { s with queue := s.queue.eraseP (fun t => t.id == tid) },
     [Ev.cancelled tid], [])
  else
    match activeLookup s.active tid with
    | some (t, wid) => (true, s, [], [(wid, t.kind)])
    | none => (false, s, [], [])

/-- Stable insertion used to model JS `Array.prototype.sort` (stable since
ES2019) with comparator `(a, b) => b.priority - a.priority`: a later element
goes after every earlier element of greater-or-equal priority. -/
def insertDesc (t : Task) : List Task → List Task
  | [] => [t]
  | h :: rest =>
    if t.priority < h.priority then h :: insertDesc t rest
    else t :: h :: rest

/-- Stable insertion sort, descending by priority: the unique stable sort
for this comparator, hence extensionally the JS sort. -/
def sortByPriorityDesc : List Task → List Task
  | [] => []
  | t :: rest => insertDesc t (sortByPriorityDesc rest)

/-- Insertion of a NEWEST element (largest `seq`) into an already sorted
queue: it lands after every element of greater-or-equal priority. -/
def insertNewest (t : Task) : List Task → List Task
  | [] => [t]
  | h :: rest =>
    if h.priority < t.priority then t :: h :: rest
    else h :: insertNewest t rest

/-- `addFile`/`addBatch` after validation: build the task, push it, re-sort
the queue by priority (stable), and process.  Returns state, task id and
dispatches. -/
def addFileQ (s : QState) (pr : Int) (k : WKind) :
    QState × Nat × List (Task × Slot) :=
  let t : Task := { id := s.nextTaskId, kind := k, priority := pr,
                    seq := s.nextTaskId, retries := 0,
                    status := TaskStatus.queued }
  let s1 := { s with queue := sortByPriorityDesc (s.queue ++ [t]),
                     nextTaskId := s.nextTaskId + 1 }
  let r := processQueue s1
  (r.1, t.id, r.2)

/-- The priority order maintained by submissions: non-increasing priority,
ties in submission order. -/
def queueSortedOK (q : List Task) : Prop :=
  q.Pairwise (fun a b =>
    b.priority ≤ a.priority ∧ (a.priority = b.priority → a.seq ≤ b.seq))

/-- The constructor's `initializeWorkerPools()`: `min(2, maxWorkers)`
pre-created workers of each kind, alternating single/batch. -/
def initQ : QState :=
  { maxConcurrent := 2, maxWorkers := 4, maxRetries := 3, retryDelay := 1000,
    queue := [], active := [],
    singlePool := [⟨0, WKind.single, false, none⟩, ⟨2, WKind.single, false, none⟩],
    batchPool := [⟨1, WKind.batch, false, none⟩, ⟨3, WKind.batch, false, none⟩],
    isPaused := false, isDestroyed := false, nextWid := 4, nextTaskId := 0 }

/-- Priority-inversion scenario: tasks 0 and 1 (priority 0) are dispatched,
task 2 (priority 5) waits; task 0 errors and its retry timer requeues it at
the queue FRONT (no re-sort); when task 1 completes, the freed capacity goes
to the retried task 0 although task 2 has higher priority. -/
def prioInversionRun : QState × List (Task × Slot) :=
  let r1 := addFileQ initQ 0 WKind.single
  let r2 := addFileQ r1.1 0 WKind.single
  let r3 := addFileQ r2.1 5 WKind.single
  let r4 := workerErrorQ r3.1 0
  let tRetried := (r4.2.2.1.map Prod.snd).headD
    ⟨0, WKind.single, 0, 0, 0, TaskStatus.queued⟩
  let r5 := timerFire r4.1 tRetried
  let r6 := workerSuccessQ r5.1 1
  (r6.1, r6.2.2)

/-- A small demonstration state: two queued single-conversion tasks already
in priority order (priority 5 submitted first, then priority 3), free
workers available. -/
def demoSorted : QState :=
  { initQ with
    queue := [⟨0, WKind.single, 5, 0, 0, TaskStatus.queued⟩,
              ⟨1, WKind.single, 3, 1, 0, TaskStatus.queued⟩] }

end Queue

/-! ## Theorems: memory manager -/

/-- C7: the claim says `hasAvailableMemory` answers `true` only when
`usage + estimate ≤ ceiling × 0.8`.  Refuted: with ceiling 1000 and usage 0,
a request of 900 exceeds the 0.8 threshold (900 > 800) yet the function
returns `true`, because the returned comparison is against the full ceiling,
not the threshold. -/
theorem C7_counterexample :
    (hasAvailableMemory [] ⟨[], [], 1000, 0⟩ 900).1 = true ∧
    ¬ (5 * ((0 : Int) + 900) ≤ 4 * 1000) := by
  decide

/-- C7 (amended): `hasAvailableMemory` returns `true` iff the pre-call
tracked usage plus the estimate is strictly below the full ceiling, and it
triggers `triggerCleanup` before answering exactly when usage plus estimate
exceeds `ceiling × 0.8` (the answer itself is computed from the
pre-reclamation usage). -/
theorem hasAvailableMemory_spec (dom : List Nat) (s : MemState) (req : Nat) :
    ((hasAvailableMemory dom s req).1 = true ↔
      s.currentMemoryEstimate + (req : Int) < (s.maxMemoryUsage : Int)) ∧
    (5 * (s.currentMemoryEstimate + (req : Int)) > 4 * (s.maxMemoryUsage : Int) →
      (hasAvailableMemory dom s req).2 = triggerCleanup dom s) ∧
    (¬ 5 * (s.currentMemoryEstimate + (req : Int)) > 4 * (s.maxMemoryUsage : Int) →
      (hasAvailableMemory dom s req).2 = s) := by
  refine ⟨?_, ?_, ?_⟩
  · simp [hasAvailableMemory, getCurrentMemoryUsage]
  · intro h
    simp [hasAvailableMemory, getCurrentMemoryUsage, h]
  · intro h
    simp [hasAvailableMemory, getCurrentMemoryUsage, h]

/-- Witness for `hasAvailableMemory_spec` at a concrete state: with ceiling
1000, usage 0 and request 900 the threshold is exceeded and cleanup runs. -/
theorem hasAvailableMemory_spec_witness :
    (hasAvailableMemory [] ⟨[], [], 1000, 0⟩ 900).2 =
      triggerCleanup [] ⟨[], [], 1000, 0⟩ :=
  (hasAvailableMemory_spec [] ⟨[], [], 1000, 0⟩ 900).2.1 (by decide)

/-- C8: evaluating `triggerCleanup` on four blobs tracked in the order
`b1, b2, b3, b4` (`b1` oldest): `keepCount = floor(4 * 0.3) = 1`, and the
code keeps the first — i.e. oldest — tracked blob `b1`, releasing the three
newest, contrary to the claim (and the code comment saying the newest 30%
are kept). -/
theorem triggerCleanup_keeps_oldest :
    (triggerCleanup [] ⟨[⟨1, 10⟩, ⟨2, 10⟩, ⟨3, 10⟩, ⟨4, 10⟩], [], 1000, 40⟩).activeBlobs
      = [⟨1, 10⟩] ∧
    (triggerCleanup [] ⟨[⟨1, 10⟩, ⟨2, 10⟩, ⟨3, 10⟩, ⟨4, 10⟩], [], 1000, 40⟩).currentMemoryEstimate
      = 10 := by
  decide

/-- C10: for a blob not currently tracked, `registerBlob` followed by
`unregisterBlob` restores the full memory-manager state; `registerBlob` adds
exactly `b.size` to the estimate; `unregisterBlob` of a tracked blob
subtracts exactly `b.size`; `unregisterBlob` of an untracked blob is the
identity. -/
theorem register_unregister_roundtrip (s : MemState) (b : Blob)
    (h : b ∉ s.activeBlobs) :
    unregisterBlob (registerBlob s b) b = s ∧
    (registerBlob s b).currentMemoryEstimate = s.currentMemoryEstimate + b.size ∧
    (∀ s' : MemState, b ∈ s'.activeBlobs →
      (unregisterBlob s' b).currentMemoryEstimate = s'.currentMemoryEstimate - b.size) ∧
    (∀ s' : MemState, b ∉ s'.activeBlobs → unregisterBlob s' b = s') := by
  refine ⟨?_, ?_, ?_, ?_⟩
  · have hmem : b ∈ setAdd s.activeBlobs b := by
      simp [setAdd, h]
    have herase : (s.activeBlobs ++ [b]).erase b = s.activeBlobs := by
      rw [List.erase_append_right _ h]
      simp
    simp [unregisterBlob, registerBlob, setAdd, h, hmem, herase]
  · rfl
  · intro s' hmem
    simp [unregisterBlob, hmem]
  · intro s' hmem
    simp [unregisterBlob, hmem]

/-- Witness for `register_unregister_roundtrip`: registering then
unregistering a fresh blob on an empty manager restores the initial state. -/
theorem register_unregister_roundtrip_witness :
    unregisterBlob (registerBlob ⟨[], [], 1000, 0⟩ ⟨1, 5⟩) ⟨1, 5⟩ =
      (⟨[], [], 1000, 0⟩ : MemState) :=
  (register_unregister_roundtrip ⟨[], [], 1000, 0⟩ ⟨1, 5⟩ (by decide)).1

/-! ## Theorems: retry policy -/

/-- Closed form of the always-failing run: starting at `retries = r < mr`
with enough fuel, the task fails after `mr - r` further attempts, with one
terminal `error` event and linearly growing backoff delays
`rd*(r+1), …, rd*(mr-1)`. -/
theorem failingRunAux_spec (mr rd : Nat) :
    ∀ fuel r st, r < mr → mr - r ≤ fuel →
      Retry.failingRunAux mr rd fuel ⟨r, st⟩ =
        { attempts := mr - r,
          delays := (List.range' (r + 1) (mr - r - 1)).map (fun k => rd * k),
          errorEvents := 1,
          final := ⟨mr, TaskStatus.failed⟩ } := by
  intro fuel
  induction fuel with
  | zero =>
    intro r st h1 h2
    omega
  | succ n ih =>
    intro r st h1 h2
    by_cases hlt : r + 1 < mr
    · have hrec := ih (r + 1) TaskStatus.queued hlt (by omega)
      simp only [Retry.failingRunAux, Retry.handleTaskError]
      rw [if_pos hlt]
      simp only [hrec, Retry.FailTrace.mk.injEq]
      refine ⟨by omega, ?_, by simp, by simp⟩
      have hm : mr - r - 1 = (mr - (r + 1) - 1) + 1 := by omega
      rw [hm, List.range'_succ, List.map_cons]
    · have hmr : mr = r + 1 := by omega
      simp only [Retry.failingRunAux, Retry.handleTaskError]
      rw [if_neg hlt]
      simp only [Retry.FailTrace.mk.injEq]
      refine ⟨by omega, ?_, by simp, by simp [hmr]⟩
      have h0 : mr - r - 1 = 0 := by omega
      rw [h0]
      rfl

/-! ## Theorems: addFile validation -/

/-- C6: the claim says `addFile` fails with a validation error for quality
outside `[1,100]`.  Refuted: quality 500 is accepted — the task is built and
enqueued, and (because the option spread overrides the clamped value) even
carries quality 500. -/
theorem C6_counterexample :
    (addFile 1 ⟨some "a.heic", 100⟩ ⟨some "jpeg", some 500, none⟩).toOption.map
        (fun t => t.quality) = some 500 ∧
    ¬ ((1 : Int) ≤ 500 ∧ (500 : Int) ≤ 100) :=
  ⟨rfl, by decide⟩

/-- C6 (amended): `addFile` fails with a validation error — enqueuing
nothing — exactly when the file name is missing or empty, the size is
negative, or the (lower-cased) target format is outside the supported set;
quality is never rejected: when validation passes the task is registered
with id `taskId`, state queued, zero retries, and a caller-provided quality
is stored unchanged (the clamped value is overridden by the option
spread). -/
theorem addFile_spec (taskId : Nat) (f : FileInfo) (o : ConvOptions) :
    ((∃ t, addFile taskId f o = Except.ok t) ↔
      ((∃ s, f.name = some s ∧ s ≠ "") ∧ 0 ≤ f.size ∧
        validTargetTypes.contains (jsToLower (rawTargetType o)) = true)) ∧
    (∀ t, addFile taskId f o = Except.ok t →
      t.id = taskId ∧ t.status = TaskStatus.queued ∧ t.retries = 0 ∧
      (∀ q, o.quality = some q → t.quality = q)) := by
  constructor
  · constructor
    · rintro ⟨t, ht⟩
      simp only [addFile] at ht
      split_ifs at ht with h1 h2 h3
      refine ⟨?_, by omega, by simpa using h3⟩
      rcases hn : f.name with _ | s
      · exact absurd (Or.inl hn) h1
      · refine ⟨s, rfl, ?_⟩
        intro hs
        exact h1 (Or.inr (by rw [hn, hs]))
    · rintro ⟨⟨s, hs, hne⟩, hsz, hct⟩
      have hname : ¬ (f.name = none ∨ f.name = some "") := by
        rintro (h | h) <;> rw [hs] at h
        · exact Option.noConfusion h
        · exact hne (by injection h)
      have hsize : ¬ f.size < 0 := by omega
      have hfmt : ¬ (!validTargetTypes.contains (jsToLower (rawTargetType o))) = true := by
        rw [hct]
        simp
      simp only [addFile]
      rw [if_neg hname, if_neg hsize, if_neg hfmt]
      exact ⟨_, rfl⟩
  · intro t ht
    simp only [addFile] at ht
    split_ifs at ht with h1 h2 h3
    cases ht
    refine ⟨rfl, rfl, rfl, ?_⟩
    intro q hq
    simp [hq]

/-- Witness for `addFile_spec`: a well-formed file and default options are
accepted. -/
theorem addFile_spec_witness :
    ∃ t, addFile 7 ⟨some "x.heic", 5⟩ ⟨none, none, none⟩ = Except.ok t :=
  (addFile_spec 7 ⟨some "x.heic", 5⟩ ⟨none, none, none⟩).1.mpr
    ⟨⟨"x.heic", rfl, by decide⟩, by decide, by decide⟩

/-! ## Theorems: worker progress streams -/

theorem tickVal_mono {e e' : Nat} (h : e ≤ e') :
    SingleWorker.tickVal e ≤ SingleWorker.tickVal e' := by
  unfold SingleWorker.tickVal
  have he : (e : ℚ) ≤ (e' : ℚ) := by exact_mod_cast h
  have : (e : ℚ) / 100 ≤ (e' : ℚ) / 100 := by linarith
  exact min_le_min le_rfl (by linarith)

theorem tickVal_lb (e : Nat) : (20 : ℚ) ≤ SingleWorker.tickVal e := by
  unfold SingleWorker.tickVal
  have : (0 : ℚ) ≤ (e : ℚ) / 100 := by positivity
  exact le_min (by norm_num) (by linarith)

theorem tickVal_ub (e : Nat) : SingleWorker.tickVal e ≤ 50 :=
  min_le_left _ _

theorem percents_append (a b : List SingleWorker.Msg) :
    SingleWorker.percents (a ++ b) =
      SingleWorker.percents a ++ SingleWorker.percents b := by
  induction a with
  | nil => rfl
  | cons m rest ih =>
    cases m <;> simp [SingleWorker.percents, ih]

theorem percents_tickMsgs (ts : List Nat) :
    SingleWorker.percents (SingleWorker.tickMsgs ts) =
      ts.map (fun e => SingleWorker.tickVal e) := by
  induction ts with
  | nil => rfl
  | cons e rest ih =>
    simp only [SingleWorker.tickMsgs, List.map_cons] at ih ⊢
    simp [SingleWorker.percents, ih]

/-- Chain skeleton of the single worker happy-path percents: the fixed
prefix, the interval ticks (each in `[20, 50]`), then a tail whose head is
at least 50. -/
theorem chain_single_core (ts : List Nat) (h : ts.Chain' (· ≤ ·))
    (rest : List ℚ) (hrest : rest.Chain' (· ≤ ·))
    (hhead : ∀ y ∈ rest.head?, (50 : ℚ) ≤ y) :
    (((([0, 10, 20, 20] : List ℚ)) ++
      ts.map (fun e => SingleWorker.tickVal e) ++ rest)).Chain' (· ≤ ·) := by
  rw [List.append_assoc, List.chain'_append]
  refine ⟨by norm_num [List.chain'_cons], ?_, ?_⟩
  · rw [List.chain'_append]
    refine ⟨?_, hrest, ?_⟩
    · rw [List.chain'_map]
      exact h.imp (fun a b hab => tickVal_mono hab)
    · intro x hx y hy
      rw [List.getLast?_map] at hx
      rcases hgl : ts.getLast? with _ | e
      · rw [hgl] at hx
        simp at hx
      · rw [hgl] at hx
        simp at hx
        subst hx
        exact le_trans (tickVal_ub e) (hhead y hy)
  · intro x hx y hy
    simp at hx
    subst hx
    cases ts with
    | nil =>
      simp at hy
      exact le_trans (by norm_num) (hhead y hy)
    | cons e ts' =>
      simp at hy
      exact le_trans (by norm_num) (le_trans (tickVal_lb e) hy.le)

/-- Monotonicity of the single-worker percent stream, for every decode
outcome, every monotone list of interval fire times, and every cancellation
point. -/
theorem single_percents_chain (d : Bool) (ts : List Nat) (c : Option Nat)
    (h : ts.Chain' (· ≤ ·)) :
    (SingleWorker.percents (SingleWorker.singleRun d ts c)).Chain' (· ≤ ·) := by
  have hnil : ([] : List ℚ).Chain' (· ≤ ·) := List.chain'_nil
  have hnilh : ∀ y ∈ ([] : List ℚ).head?, (50 : ℚ) ≤ y := by
    intro y hy
    simp at hy
  by_cases h1 : c = some 1
  · simp only [SingleWorker.singleRun]
    rw [if_pos h1]
    norm_num [SingleWorker.percents, List.chain'_cons]
  · by_cases h2 : c = some 2
    · simp only [SingleWorker.singleRun]
      rw [if_neg h1, if_pos h2]
      cases d <;>
        simpa [SingleWorker.percents, percents_append, percents_tickMsgs]
          using chain_single_core ts h [] hnil hnilh
    · cases d with
      | false =>
        simp only [SingleWorker.singleRun]
        rw [if_neg h1, if_neg h2]
        simpa [SingleWorker.percents, percents_append, percents_tickMsgs]
          using chain_single_core ts h [] hnil hnilh
      | true =>
        by_cases h3 : c = some 3
        · simp only [SingleWorker.singleRun]
          rw [if_neg h1, if_neg h2, if_pos h3]
          have hr : ([60, 60] : List ℚ).Chain' (· ≤ ·) := by
            norm_num [List.chain'_cons]
          have hrh : ∀ y ∈ ([60, 60] : List ℚ).head?, (50 : ℚ) ≤ y := by
            intro y hy
            simp at hy
            subst hy
            norm_num
          simpa [SingleWorker.percents, percents_append, percents_tickMsgs]
            using chain_single_core ts h [60, 60] hr hrh
        · by_cases h4 : c = some 4
          · simp only [SingleWorker.singleRun]
            rw [if_neg h1, if_neg h2, if_neg h3, if_pos h4]
            have hr : ([60, 60, 80] : List ℚ).Chain' (· ≤ ·) := by
              norm_num [List.chain'_cons]
            have hrh : ∀ y ∈ ([60, 60, 80] : List ℚ).head?, (50 : ℚ) ≤ y := by
              intro y hy
              simp at hy
              subst hy
              norm_num
            simpa [SingleWorker.percents, percents_append, percents_tickMsgs]
              using chain_single_core ts h [60, 60, 80] hr hrh
          · simp only [SingleWorker.singleRun]
            rw [if_neg h1, if_neg h2, if_neg h3, if_neg h4]
            have hr : ([60, 60, 80, 90, 90, 100] : List ℚ).Chain' (· ≤ ·) := by
              norm_num [List.chain'_cons]
            have hrh :
                ∀ y ∈ ([60, 60, 80, 90, 90, 100] : List ℚ).head?, (50 : ℚ) ≤ y := by
              intro y hy
              simp at hy
              subst hy
              norm_num
            simpa [SingleWorker.percents, percents_append, percents_tickMsgs]
              using chain_single_core ts h [60, 60, 80, 90, 90, 100] hr hrh

theorem countTerminal_append (a b : List SingleWorker.Msg) :
    SingleWorker.countTerminal (a ++ b) =
      SingleWorker.countTerminal a + SingleWorker.countTerminal b :=
  List.countP_append ..

theorem countTerminal_tickMsgs (ts : List Nat) :
    SingleWorker.countTerminal (SingleWorker.tickMsgs ts) = 0 := by
  induction ts with
  | nil => rfl
  | cons e rest ih =>
    simp only [SingleWorker.tickMsgs, List.map_cons] at ih ⊢
    simp [SingleWorker.countTerminal, SingleWorker.isTerminal, List.countP_cons, ih]

/-- Without cancellation the single worker's stream is progress messages
followed by exactly one terminal message: the result with the decode
outcome. -/
theorem singleRun_nocancel (d : Bool) (ts : List Nat) :
    ∃ ps, SingleWorker.singleRun d ts none =
        ps ++ [SingleWorker.Msg.result d false] ∧
      SingleWorker.countTerminal ps = 0 := by
  cases d with
  | false =>
    refine ⟨[SingleWorker.Msg.progress 0 Stage.loading,
             SingleWorker.Msg.progress 10 Stage.loading,
             SingleWorker.Msg.progress 20 Stage.loading,
             SingleWorker.Msg.progress 20 Stage.decoding] ++
            SingleWorker.tickMsgs ts, ?_, ?_⟩
    · simp [SingleWorker.singleRun]
    · rw [countTerminal_append, countTerminal_tickMsgs]; decide
  | true =>
    refine ⟨[SingleWorker.Msg.progress 0 Stage.loading,
             SingleWorker.Msg.progress 10 Stage.loading,
             SingleWorker.Msg.progress 20 Stage.loading,
             SingleWorker.Msg.progress 20 Stage.decoding] ++
            SingleWorker.tickMsgs ts ++
            [SingleWorker.Msg.progress 60 Stage.decoding,
             SingleWorker.Msg.progress 60 Stage.encoding,
             SingleWorker.Msg.progress 80 Stage.encoding,
             SingleWorker.Msg.progress 90 Stage.encoding,
             SingleWorker.Msg.progress 90 Stage.finalizing,
             SingleWorker.Msg.progress 100 Stage.complete], ?_, ?_⟩
    · simp [SingleWorker.singleRun]
    · rw [countTerminal_append, countTerminal_append, countTerminal_tickMsgs]; decide

/-- With a cancel command processed at a suspension point the run actually
reaches (the decode call must have succeeded for the two encoding-phase
suspensions to exist), the single worker's stream is progress messages
followed by exactly two terminal messages: the typed cancelled
acknowledgment posted by the cancel handler, then the result posted by the
conversion coroutine's catch block. -/
theorem singleRun_cancel (d : Bool) (ts : List Nat) (c : Option Nat)
    (hc : c = some 1 ∨ c = some 2 ∨
      ((c = some 3 ∨ c = some 4) ∧ d = true)) :
    ∃ ps b, SingleWorker.singleRun d ts c =
        ps ++ [SingleWorker.Msg.typedCancelled,
               SingleWorker.Msg.result false b] ∧
      SingleWorker.countTerminal ps = 0 := by
  rcases hc with hc | hc | ⟨hc, hd⟩
  · refine ⟨[SingleWorker.Msg.progress 0 Stage.loading,
             SingleWorker.Msg.progress 10 Stage.loading], true, ?_, rfl⟩
    simp only [SingleWorker.singleRun]
    rw [if_pos hc]
  · refine ⟨[SingleWorker.Msg.progress 0 Stage.loading,
             SingleWorker.Msg.progress 10 Stage.loading,
             SingleWorker.Msg.progress 20 Stage.loading,
             SingleWorker.Msg.progress 20 Stage.decoding] ++
            SingleWorker.tickMsgs ts, d, ?_, ?_⟩
    · simp only [SingleWorker.singleRun]
      rw [if_neg (by rw [hc]; decide), if_pos hc]
      cases d <;> simp
    · rw [countTerminal_append, countTerminal_tickMsgs]; decide
  · subst hd
    rcases hc with hc | hc
    · refine ⟨[SingleWorker.Msg.progress 0 Stage.loading,
               SingleWorker.Msg.progress 10 Stage.loading,
               SingleWorker.Msg.progress 20 Stage.loading,
               SingleWorker.Msg.progress 20 Stage.decoding] ++
              SingleWorker.tickMsgs ts ++
              [SingleWorker.Msg.progress 60 Stage.decoding,
               SingleWorker.Msg.progress 60 Stage.encoding], true, ?_, ?_⟩
      · simp only [SingleWorker.singleRun]
        rw [if_neg (by rw [hc]; decide), if_neg (by rw [hc]; decide),
          if_neg (by decide), if_pos hc]
        simp
      · rw [countTerminal_append, countTerminal_append, countTerminal_tickMsgs]; decide
    · refine ⟨[SingleWorker.Msg.progress 0 Stage.loading,
               SingleWorker.Msg.progress 10 Stage.loading,
               SingleWorker.Msg.progress 20 Stage.loading,
               SingleWorker.Msg.progress 20 Stage.decoding] ++
              SingleWorker.tickMsgs ts ++
              [SingleWorker.Msg.progress 60 Stage.decoding,
               SingleWorker.Msg.progress 60 Stage.encoding,
               SingleWorker.Msg.progress 80 Stage.encoding], true, ?_, ?_⟩
      · simp only [SingleWorker.singleRun]
        rw [if_neg (by rw [hc]; decide), if_neg (by rw [hc]; decide),
          if_neg (by decide), if_neg (by rw [hc]; decide), if_pos hc]
        simp
      · rw [countTerminal_append, countTerminal_append, countTerminal_tickMsgs]; decide

theorem calcBatchProgress_mono (total i iq : Nat) (fp fq : ℚ)
    (h : 100 * (i : ℚ) + fp ≤ 100 * (iq : ℚ) + fq) :
    BatchWorker.calculateBatchProgress total i fp ≤
      BatchWorker.calculateBatchProgress total iq fq := by
  unfold BatchWorker.calculateBatchProgress
  rcases Nat.eq_zero_or_pos total with h0 | hpos
  · subst h0
    simp
  · have ht : (0 : ℚ) < (total : ℚ) := by exact_mod_cast hpos
    apply min_le_min le_rfl
    rw [div_mul_eq_mul_div, div_mul_eq_mul_div, div_add_div_same, div_add_div_same]
    exact (div_le_div_iff_of_pos_right ht).mpr (by linarith)

theorem calcBatchProgress_nonneg (total i : Nat) (fp : ℚ) (hfp : 0 ≤ fp) :
    0 ≤ BatchWorker.calculateBatchProgress total i fp := by
  unfold BatchWorker.calculateBatchProgress
  have h1 : (0 : ℚ) ≤ (i : ℚ) / (total : ℚ) * 100 := by positivity
  have h2 : (0 : ℚ) ≤ fp / (total : ℚ) := by positivity
  exact le_min (by norm_num) (by linarith)

theorem calcBatchProgress_le_100 (total i : Nat) (fp : ℚ) :
    BatchWorker.calculateBatchProgress total i fp ≤ 100 :=
  min_le_left _ _

theorem bPercents_append (a b : List BatchWorker.BMsg) :
    BatchWorker.bPercents (a ++ b) =
      BatchWorker.bPercents a ++ BatchWorker.bPercents b := by
  induction a with
  | nil => rfl
  | cons m rest ih =>
    cases m <;> simp [BatchWorker.bPercents, ih]

theorem startedFiles_append (a b : List BatchWorker.BMsg) :
    BatchWorker.startedFiles (a ++ b) =
      BatchWorker.startedFiles a ++ BatchWorker.startedFiles b := by
  induction a with
  | nil => rfl
  | cons m rest ih =>
    rcases m with ⟨p, f, st⟩ | _ | _
    · rcases f with _ | i
      · simp [BatchWorker.startedFiles, ih]
      · cases st <;> simp [BatchWorker.startedFiles, ih]
    · simp [BatchWorker.startedFiles, ih]
    · simp [BatchWorker.startedFiles, ih]

theorem bPercents_fileMsgsOk (total i : Nat) :
    BatchWorker.bPercents (BatchWorker.fileMsgsOk total i) =
      ([0, 20, 40, 70, 90, 100] : List ℚ).map
        (fun fp => BatchWorker.calculateBatchProgress total i fp) := rfl

theorem bPercents_fileMsgsFail (total i : Nat) :
    BatchWorker.bPercents (BatchWorker.fileMsgsFail total i) =
      ([0, 20, 40] : List ℚ).map
        (fun fp => BatchWorker.calculateBatchProgress total i fp) := rfl

theorem bPercents_cancelMsgs (total i s : Nat) (res err : List Nat) :
    BatchWorker.bPercents (BatchWorker.cancelMsgs total i s res err) =
      (if s = 1 then ([0, 20] : List ℚ) else if s = 2 then [0, 20, 40]
       else [0, 20, 40, 70, 90, 100]).map
        (fun fp => BatchWorker.calculateBatchProgress total i fp) := by
  by_cases h1 : s = 1
  · simp [BatchWorker.cancelMsgs, h1, BatchWorker.bPercents]
  · by_cases h2 : s = 2 <;>
      simp [BatchWorker.cancelMsgs, h1, h2, BatchWorker.bPercents]

theorem chain_calcList (total i : Nat) (fps : List ℚ)
    (h : fps.Chain' (· ≤ ·)) :
    ((fps.map (fun fp => BatchWorker.calculateBatchProgress total i fp)).Chain'
      (· ≤ ·)) := by
  rw [List.chain'_map]
  exact h.imp (fun a b hab => calcBatchProgress_mono total i i a b (by linarith))

theorem mem_calcList_bounds (total i : Nat) (fps : List ℚ)
    (h : ∀ fp ∈ fps, 0 ≤ fp) :
    ∀ p ∈ fps.map (fun fp => BatchWorker.calculateBatchProgress total i fp),
      BatchWorker.calculateBatchProgress total i 0 ≤ p ∧ p ≤ 100 := by
  intro p hp
  rw [List.mem_map] at hp
  obtain ⟨fp, hfp, rfl⟩ := hp
  exact ⟨calcBatchProgress_mono total i i 0 fp (by have := h fp hfp; linarith),
    calcBatchProgress_le_100 total i fp⟩

/-- The batch file loop emits a non-decreasing percent sequence, every value
of which lies between the progress of the current file's start and 100 —
for every cancellation schedule. -/
theorem runFiles_chain (total : Nat) (ca : Option (Nat × Nat)) :
    ∀ (outs : List Bool) (i : Nat) (res err : List Nat),
      ((BatchWorker.bPercents
          (BatchWorker.runFiles total ca outs i res err).1).Chain' (· ≤ ·)) ∧
      ∀ p ∈ BatchWorker.bPercents
          (BatchWorker.runFiles total ca outs i res err).1,
        BatchWorker.calculateBatchProgress total i 0 ≤ p ∧ p ≤ 100 := by
  intro outs
  induction outs with
  | nil =>
    intro i res err
    refine ⟨by simp [BatchWorker.runFiles, BatchWorker.bPercents], ?_⟩
    intro p hp
    simp [BatchWorker.runFiles, BatchWorker.bPercents] at hp
  | cons ok rest ih =>
    intro i res err
    by_cases hci : BatchWorker.isCancelAt ca i = true
    · have hrw : BatchWorker.runFiles total ca (ok :: rest) i res err =
          (BatchWorker.cancelMsgs total i ((ca.map Prod.snd).getD 0) res err,
           if (ca.map Prod.snd).getD 0 = 3 then res ++ [i] else res,
           if (ca.map Prod.snd).getD 0 = 3 then err else err ++ [i],
           true) := by
        simp [BatchWorker.runFiles, hci]
      rw [hrw]
      refine ⟨?_, ?_⟩
      · rw [bPercents_cancelMsgs]
        apply chain_calcList
        split_ifs <;> norm_num [List.chain'_cons]
      · rw [bPercents_cancelMsgs]
        apply mem_calcList_bounds
        split_ifs <;> (intro fp hfp; fin_cases hfp <;> norm_num)
    · have hci' : BatchWorker.isCancelAt ca i = false := by
        simpa using hci
      obtain ⟨ihc, ihb⟩ := ih (i + 1) (if ok then res ++ [i] else res)
        (if ok then err else err ++ [i])
      cases ok with
      | false =>
        have hrw : BatchWorker.runFiles total ca (false :: rest) i res err =
            (BatchWorker.fileMsgsFail total i ++
               (BatchWorker.runFiles total ca rest (i + 1) res (err ++ [i])).1,
             (BatchWorker.runFiles total ca rest (i + 1) res (err ++ [i])).2) := by
          simp [BatchWorker.runFiles, hci']
        simp only [Bool.false_eq_true, if_neg] at ihc ihb
        rw [hrw]
        refine ⟨?_, ?_⟩
        · rw [bPercents_append, List.chain'_append]
          refine ⟨?_, ihc, ?_⟩
          · rw [bPercents_fileMsgsFail]
            exact chain_calcList total i _ (by norm_num [List.chain'_cons])
          · intro x hx y hy
            have hy' := (ihb y (List.mem_of_mem_head? hy)).1
            have hx' : x = BatchWorker.calculateBatchProgress total i 40 := by
              rw [bPercents_fileMsgsFail] at hx
              have := hx
              simp at this
              exact this.symm
            subst hx'
            exact le_trans
              (calcBatchProgress_mono total i (i + 1) 40 0 (by push_cast; linarith))
              hy'
        · intro p hp
          rw [bPercents_append] at hp
          rcases List.mem_append.mp hp with hp | hp
          · rw [bPercents_fileMsgsFail] at hp
            exact mem_calcList_bounds total i [0, 20, 40]
              (by intro fp hfp; fin_cases hfp <;> norm_num) p hp
          · obtain ⟨h1, h2⟩ := ihb p hp
            exact ⟨le_trans
              (calcBatchProgress_mono total i (i + 1) 0 0 (by push_cast; linarith))
              h1, h2⟩
      | true =>
        have hrw : BatchWorker.runFiles total ca (true :: rest) i res err =
            (BatchWorker.fileMsgsOk total i ++
               (BatchWorker.runFiles total ca rest (i + 1) (res ++ [i]) err).1,
             (BatchWorker.runFiles total ca rest (i + 1) (res ++ [i]) err).2) := by
          simp [BatchWorker.runFiles, hci']
        simp only [if_pos] at ihc ihb
        rw [hrw]
        refine ⟨?_, ?_⟩
        · rw [bPercents_append, List.chain'_append]
          refine ⟨?_, ihc, ?_⟩
          · rw [bPercents_fileMsgsOk]
            exact chain_calcList total i _ (by norm_num [List.chain'_cons])
          · intro x hx y hy
            have hy' := (ihb y (List.mem_of_mem_head? hy)).1
            have hx' : x = BatchWorker.calculateBatchProgress total i 100 := by
              rw [bPercents_fileMsgsOk] at hx
              have := hx
              simp at this
              exact this.symm
            subst hx'
            exact le_trans
              (calcBatchProgress_mono total i (i + 1) 100 0 (by push_cast; linarith))
              hy'
        · intro p hp
          rw [bPercents_append] at hp
          rcases List.mem_append.mp hp with hp | hp
          · rw [bPercents_fileMsgsOk] at hp
            exact mem_calcList_bounds total i [0, 20, 40, 70, 90, 100]
              (by intro fp hfp; fin_cases hfp <;> norm_num) p hp
          · obtain ⟨h1, h2⟩ := ihb p hp
            exact ⟨le_trans
              (calcBatchProgress_mono total i (i + 1) 0 0 (by push_cast; linarith))
              h1, h2⟩

/-- Monotonicity of the whole batch progress stream, for every outcome list
and every cancellation schedule. -/
theorem batch_percents_chain (outs : List Bool) (ca : Option (Nat × Nat)) :
    (BatchWorker.bPercents (BatchWorker.batchRun outs ca)).Chain' (· ≤ ·) := by
  obtain ⟨hch, hb⟩ := runFiles_chain outs.length ca outs 0 [] []
  unfold BatchWorker.batchRun
  dsimp only
  by_cases hcanc :
      (BatchWorker.runFiles outs.length ca outs 0 [] []).2.2.2 = true
  · rw [if_pos hcanc]
    show (BatchWorker.bPercents
      (BatchWorker.BMsg.progress 0 none Stage.initializing ::
        ((BatchWorker.runFiles outs.length ca outs 0 [] []).1 ++ []))).Chain' _
    rw [List.append_nil]
    rw [show BatchWorker.bPercents
        (BatchWorker.BMsg.progress 0 none Stage.initializing ::
          (BatchWorker.runFiles outs.length ca outs 0 [] []).1) =
      0 :: BatchWorker.bPercents
        (BatchWorker.runFiles outs.length ca outs 0 [] []).1 from rfl]
    rw [List.chain'_cons']
    refine ⟨?_, hch⟩
    intro y hy
    have hy' := (hb y (List.mem_of_mem_head? hy)).1
    exact le_trans (calcBatchProgress_nonneg _ _ _ le_rfl) hy'
  · rw [if_neg hcanc]
    show (BatchWorker.bPercents
      (BatchWorker.BMsg.progress 0 none Stage.initializing ::
        ((BatchWorker.runFiles outs.length ca outs 0 [] []).1 ++
          [BatchWorker.BMsg.progress 100 none Stage.complete,
           BatchWorker.BMsg.batchComplete
             (BatchWorker.runFiles outs.length ca outs 0 [] []).2.1
             (BatchWorker.runFiles outs.length ca outs 0 [] []).2.2.1]))).Chain' _
    rw [show ∀ l, BatchWorker.bPercents
        (BatchWorker.BMsg.progress 0 none Stage.initializing :: l) =
      0 :: BatchWorker.bPercents l from fun l => rfl]
    rw [List.chain'_cons', bPercents_append]
    constructor
    · intro y hy
      have hym := List.mem_of_mem_head? hy
      rcases List.mem_append.mp hym with hym | hym
      · exact le_trans (calcBatchProgress_nonneg _ _ _ le_rfl) (hb y hym).1
      · have h100 := hym
        simp [BatchWorker.bPercents] at h100
        subst h100
        norm_num
    · rw [List.chain'_append]
      refine ⟨hch, ?_, ?_⟩
      · show (BatchWorker.bPercents _).Chain' _
        simp [BatchWorker.bPercents]
      · intro x hx y hy
        have hxm := List.mem_of_mem_getLast? hx
        have hx100 := (hb x hxm).2
        have h100 := hy
        simp [BatchWorker.bPercents] at h100
        subst h100
        exact hx100

theorem fileMsgsOk_progress (total i : Nat) :
    ∀ m ∈ BatchWorker.fileMsgsOk total i, BatchWorker.bIsTerminal m = false := by
  intro m hm
  simp [BatchWorker.fileMsgsOk] at hm
  rcases hm with rfl | rfl | rfl | rfl | rfl | rfl <;> rfl

theorem fileMsgsFail_progress (total i : Nat) :
    ∀ m ∈ BatchWorker.fileMsgsFail total i, BatchWorker.bIsTerminal m = false := by
  intro m hm
  simp [BatchWorker.fileMsgsFail] at hm
  rcases hm with rfl | rfl | rfl <;> rfl

/-- Without a cancel command the batch loop emits only progress messages and
does not report cancellation. -/
theorem runFiles_none_progress (total : Nat) :
    ∀ (outs : List Bool) (i : Nat) (res err : List Nat),
      (∀ m ∈ (BatchWorker.runFiles total none outs i res err).1,
        BatchWorker.bIsTerminal m = false) ∧
      (BatchWorker.runFiles total none outs i res err).2.2.2 = false := by
  intro outs
  induction outs with
  | nil =>
    intro i res err
    refine ⟨?_, rfl⟩
    intro m hm
    simp [BatchWorker.runFiles] at hm
  | cons ok rest ih =>
    intro i res err
    have hrw : BatchWorker.runFiles total none (ok :: rest) i res err =
        ((if ok then BatchWorker.fileMsgsOk total i
          else BatchWorker.fileMsgsFail total i) ++
           (BatchWorker.runFiles total none rest (i + 1)
             (if ok then res ++ [i] else res)
             (if ok then err else err ++ [i])).1,
         (BatchWorker.runFiles total none rest (i + 1)
             (if ok then res ++ [i] else res)
             (if ok then err else err ++ [i])).2) := by
      simp [BatchWorker.runFiles, BatchWorker.isCancelAt]
    obtain ⟨ihall, ihcanc⟩ := ih (i + 1) (if ok then res ++ [i] else res)
      (if ok then err else err ++ [i])
    rw [hrw]
    refine ⟨?_, ihcanc⟩
    intro m hm
    rcases List.mem_append.mp hm with hm | hm
    · cases ok with
      | false => exact fileMsgsFail_progress total i m (by simpa using hm)
      | true => exact fileMsgsOk_progress total i m (by simpa using hm)
    · exact ihall m hm

/-- Without a cancel command the full batch stream is progress messages
followed by exactly one terminal `batch-complete`. -/
theorem batchRun_nocancel (outs : List Bool) :
    BatchWorker.progressThenOneTerminal (BatchWorker.batchRun outs none) = true := by
  obtain ⟨hall, hcanc⟩ := runFiles_none_progress outs.length outs 0 [] []
  unfold BatchWorker.batchRun
  dsimp only
  rw [if_neg (by rw [hcanc]; decide)]
  have hshape : (BatchWorker.BMsg.progress 0 none Stage.initializing ::
      (BatchWorker.runFiles outs.length none outs 0 [] []).1) ++
        [BatchWorker.BMsg.progress 100 none Stage.complete,
         BatchWorker.BMsg.batchComplete
           (BatchWorker.runFiles outs.length none outs 0 [] []).2.1
           (BatchWorker.runFiles outs.length none outs 0 [] []).2.2.1] =
      ((BatchWorker.BMsg.progress 0 none Stage.initializing ::
        (BatchWorker.runFiles outs.length none outs 0 [] []).1) ++
          [BatchWorker.BMsg.progress 100 none Stage.complete]) ++
      [BatchWorker.BMsg.batchComplete
          (BatchWorker.runFiles outs.length none outs 0 [] []).2.1
          (BatchWorker.runFiles outs.length none outs 0 [] []).2.2.1] := by
    simp
  rw [hshape]
  unfold BatchWorker.progressThenOneTerminal
  rw [List.dropLast_concat, List.getLast?_concat]
  simp only [List.all_cons, List.all_append, Bool.and_eq_true, List.all_eq_true]
  refine ⟨⟨⟨?_, ?_⟩, ?_, ?_⟩, ?_⟩
  · rfl
  · intro m hm
    simp [hall m hm]
  · rfl
  · intro m hm
    simp at hm
  · rfl

theorem fileMsgsOk_started (total i : Nat) :
    ∀ j ∈ BatchWorker.startedFiles (BatchWorker.fileMsgsOk total i), j = i := by
  intro j hj
  simp [BatchWorker.fileMsgsOk, BatchWorker.startedFiles] at hj
  exact hj

theorem fileMsgsFail_started (total i : Nat) :
    ∀ j ∈ BatchWorker.startedFiles (BatchWorker.fileMsgsFail total i), j = i := by
  intro j hj
  simp [BatchWorker.fileMsgsFail, BatchWorker.startedFiles] at hj
  exact hj

/-- Shape of the messages around the cancellation of file `i`: some progress
messages, the single `batch-cancelled` terminal carrying the accumulators as
they were when the cancel command was processed, and at most two further
(unguarded) progress messages of the in-flight file. -/
theorem cancelMsgs_split (total i sp : Nat) (res err : List Nat) :
    ∃ pre post,
      BatchWorker.cancelMsgs total i sp res err =
        pre ++ BatchWorker.BMsg.batchCancelled res err :: post ∧
      (∀ m ∈ pre, BatchWorker.bIsTerminal m = false) ∧
      (∀ m ∈ post, BatchWorker.bIsTerminal m = false) ∧
      post.length ≤ 2 ∧
      (∀ j ∈ BatchWorker.startedFiles
          (BatchWorker.cancelMsgs total i sp res err), j = i) := by
  by_cases h1 : sp = 1
  · refine ⟨[BatchWorker.BMsg.progress
        (BatchWorker.calculateBatchProgress total i 0) (some i) Stage.loading],
      [BatchWorker.BMsg.progress
        (BatchWorker.calculateBatchProgress total i 20) (some i) Stage.loading],
      by simp [BatchWorker.cancelMsgs, h1], ?_, ?_, by norm_num, ?_⟩
    · intro m hm
      simp at hm
      subst hm
      rfl
    · intro m hm
      simp at hm
      subst hm
      rfl
    · intro j hj
      simp [BatchWorker.cancelMsgs, h1, BatchWorker.startedFiles] at hj
      exact hj
  · by_cases h2 : sp = 2
    · refine ⟨[BatchWorker.BMsg.progress
          (BatchWorker.calculateBatchProgress total i 0) (some i) Stage.loading,
        BatchWorker.BMsg.progress
          (BatchWorker.calculateBatchProgress total i 20) (some i) Stage.loading,
        BatchWorker.BMsg.progress
          (BatchWorker.calculateBatchProgress total i 40) (some i) Stage.decoding],
        [], by simp [BatchWorker.cancelMsgs, h1, h2], ?_, ?_, by norm_num, ?_⟩
      · intro m hm
        simp at hm
        rcases hm with rfl | rfl | rfl <;> rfl
      · intro m hm
        simp at hm
      · intro j hj
        simp [BatchWorker.cancelMsgs, h1, h2, BatchWorker.startedFiles] at hj
        exact hj
    · refine ⟨[BatchWorker.BMsg.progress
          (BatchWorker.calculateBatchProgress total i 0) (some i) Stage.loading,
        BatchWorker.BMsg.progress
          (BatchWorker.calculateBatchProgress total i 20) (some i) Stage.loading,
        BatchWorker.BMsg.progress
          (BatchWorker.calculateBatchProgress total i 40) (some i) Stage.decoding,
        BatchWorker.BMsg.progress
          (BatchWorker.calculateBatchProgress total i 70) (some i) Stage.encoding],
        [BatchWorker.BMsg.progress
          (BatchWorker.calculateBatchProgress total i 90) (some i) Stage.finalizing,
        BatchWorker.BMsg.progress
          (BatchWorker.calculateBatchProgress total i 100) (some i) Stage.complete],
        by simp [BatchWorker.cancelMsgs, h1, h2], ?_, ?_, by norm_num, ?_⟩
      · intro m hm
        simp at hm
        rcases hm with rfl | rfl | rfl | rfl <;> rfl
      · intro m hm
        simp at hm
        rcases hm with rfl | rfl <;> rfl
      · intro j hj
        simp [BatchWorker.cancelMsgs, h1, h2, BatchWorker.startedFiles] at hj
        exact hj

/-- The batch loop, cancelled during file `c`: its message list is progress
messages, then the one `batch-cancelled` terminal — whose payload equals the
accumulators an uncancelled run over the files before `c` would have
gathered — then at most two progress messages; the loop reports cancelled
and starts no file beyond `c`. -/
theorem runFiles_cancel_split (total c sp : Nat) :
    ∀ (outs : List Bool) (i : Nat) (res err : List Nat),
      i ≤ c → c < i + outs.length →
      ∃ pre post,
        (BatchWorker.runFiles total (some (c, sp)) outs i res err).1 =
          pre ++ BatchWorker.BMsg.batchCancelled
              (BatchWorker.runFiles total none (outs.take (c - i)) i res err).2.1
              (BatchWorker.runFiles total none (outs.take (c - i)) i res err).2.2.1
            :: post ∧
        (∀ m ∈ pre, BatchWorker.bIsTerminal m = false) ∧
        (∀ m ∈ post, BatchWorker.bIsTerminal m = false) ∧
        post.length ≤ 2 ∧
        (BatchWorker.runFiles total (some (c, sp)) outs i res err).2.2.2 = true ∧
        (∀ j ∈ BatchWorker.startedFiles
            (BatchWorker.runFiles total (some (c, sp)) outs i res err).1,
          j ≤ c) := by
  intro outs
  induction outs with
  | nil =>
    intro i res err h1 h2
    simp at h2
    omega
  | cons ok rest ih =>
    intro i res err h1 h2
    by_cases hci : c = i
    · subst hci
      have hrw : BatchWorker.runFiles total (some (c, sp)) (ok :: rest) c res err =
          (BatchWorker.cancelMsgs total c sp res err,
           if sp = 3 then res ++ [c] else res,
           if sp = 3 then err else err ++ [c], true) := by
        simp [BatchWorker.runFiles, BatchWorker.isCancelAt]
      have htake : c - c = 0 := by omega
      obtain ⟨pre, post, heq, hpre, hpost, hlen, hstart⟩ :=
        cancelMsgs_split total c sp res err
      refine ⟨pre, post, ?_, hpre, hpost, hlen, ?_, ?_⟩
      · rw [hrw, htake]
        exact heq
      · rw [hrw]
      · rw [hrw]
        intro j hj
        exact le_of_eq (hstart j hj)
    · have hlt : i < c := by omega
      have hici : BatchWorker.isCancelAt (some (c, sp)) i = false := by
        simp [BatchWorker.isCancelAt]
        omega
      have hrw : BatchWorker.runFiles total (some (c, sp)) (ok :: rest) i res err =
          ((if ok then BatchWorker.fileMsgsOk total i
            else BatchWorker.fileMsgsFail total i) ++
             (BatchWorker.runFiles total (some (c, sp)) rest (i + 1)
               (if ok then res ++ [i] else res)
               (if ok then err else err ++ [i])).1,
           (BatchWorker.runFiles total (some (c, sp)) rest (i + 1)
               (if ok then res ++ [i] else res)
               (if ok then err else err ++ [i])).2) := by
        simp [BatchWorker.runFiles, hici]
      obtain ⟨pre, post, heq, hpre, hpost, hlen, hcanc, hstart⟩ :=
        ih (i + 1) (if ok then res ++ [i] else res)
          (if ok then err else err ++ [i]) (by omega)
          (by simp only [List.length_cons] at h2; omega)
      have htake : (ok :: rest).take (c - i) = ok :: rest.take (c - i - 1) := by
        rw [show c - i = (c - i - 1) + 1 by omega]
        rfl
      have hstep : BatchWorker.runFiles total none
          (ok :: rest.take (c - i - 1)) i res err =
          ((if ok then BatchWorker.fileMsgsOk total i
            else BatchWorker.fileMsgsFail total i) ++
             (BatchWorker.runFiles total none (rest.take (c - i - 1)) (i + 1)
               (if ok then res ++ [i] else res)
               (if ok then err else err ++ [i])).1,
           (BatchWorker.runFiles total none (rest.take (c - i - 1)) (i + 1)
               (if ok then res ++ [i] else res)
               (if ok then err else err ++ [i])).2) := by
        simp [BatchWorker.runFiles, BatchWorker.isCancelAt]
      have hidx : c - i - 1 = c - (i + 1) := by omega
      refine ⟨(if ok then BatchWorker.fileMsgsOk total i
          else BatchWorker.fileMsgsFail total i) ++ pre, post, ?_, ?_, hpost,
        hlen, ?_, ?_⟩
      · rw [hrw, htake, hstep]
        rw [hidx] at *
        rw [heq]
        simp
      · intro m hm
        rcases List.mem_append.mp hm with hm | hm
        · cases ok with
          | false => exact fileMsgsFail_progress total i m (by simpa using hm)
          | true => exact fileMsgsOk_progress total i m (by simpa using hm)
        · exact hpre m hm
      · rw [hrw]
        exact hcanc
      · rw [hrw]
        intro j hj
        rw [startedFiles_append] at hj
        rcases List.mem_append.mp hj with hj | hj
        · cases ok with
          | false =>
            have := fileMsgsFail_started total i j (by simpa using hj)
            omega
          | true =>
            have := fileMsgsOk_started total i j (by simpa using hj)
            omega
        · exact hstart j hj

/-- A batch run cancelled during file `c < totalFiles`: the full stream is
progress messages, exactly one terminal `batch-cancelled` whose payload is
what an uncancelled run over the first `c` files gathers, then at most two
further progress messages; and no file beyond `c` is ever started. -/
theorem batchRun_cancel (outs : List Bool) (c sp : Nat)
    (hc : c < outs.length) :
    ∃ pre post,
      BatchWorker.batchRun outs (some (c, sp)) =
        pre ++ BatchWorker.BMsg.batchCancelled
            (BatchWorker.runFiles outs.length none (outs.take c) 0 [] []).2.1
            (BatchWorker.runFiles outs.length none (outs.take c) 0 [] []).2.2.1
          :: post ∧
      (∀ m ∈ pre, BatchWorker.bIsTerminal m = false) ∧
      (∀ m ∈ post, BatchWorker.bIsTerminal m = false) ∧
      post.length ≤ 2 ∧
      (∀ j ∈ BatchWorker.startedFiles (BatchWorker.batchRun outs (some (c, sp))),
        j ≤ c) := by
  obtain ⟨pre, post, heq, hpre, hpost, hlen, hcanc, hstart⟩ :=
    runFiles_cancel_split outs.length c sp outs 0 [] [] (by omega) (by omega)
  rw [Nat.sub_zero] at heq
  have hbr : BatchWorker.batchRun outs (some (c, sp)) =
      BatchWorker.BMsg.progress 0 none Stage.initializing ::
        (BatchWorker.runFiles outs.length (some (c, sp)) outs 0 [] []).1 := by
    unfold BatchWorker.batchRun
    dsimp only
    rw [if_pos hcanc, List.append_nil]
  refine ⟨BatchWorker.BMsg.progress 0 none Stage.initializing :: pre, post,
    ?_, ?_, hpost, hlen, ?_⟩
  · rw [hbr, heq]
    simp
  · intro m hm
    rcases List.mem_cons.mp hm with rfl | hm
    · rfl
    · exact hpre m hm
  · intro j hj
    rw [hbr] at hj
    have hj' : j ∈ BatchWorker.startedFiles
        (BatchWorker.runFiles outs.length (some (c, sp)) outs 0 [] []).1 := by
      simpa [BatchWorker.startedFiles] using hj
    exact hstart j hj'

/-- C1: the claim says an always-failing task is marked failed after exactly
`maxRetries + 1` total attempts.  Refuted at the default configuration
`maxRetries = 3`: `handleTaskError` increments `retries` before comparing
with `maxRetries`, so the task fails after exactly 3 attempts, not 4. -/
theorem C1_counterexample :
    (Retry.failingRun 3 1000).attempts = 3 ∧
    (Retry.failingRun 3 1000).attempts ≠ 3 + 1 := by
  decide

/-- C1 (amended): for `maxRetries ≥ 1`, a task all of whose conversion
attempts end in a worker-reported error is marked failed after exactly
`maxRetries` total attempts (not `maxRetries + 1`), with exactly one terminal
`error` event; every requeue before that is scheduled after a linear backoff
delay of `retryDelay × retryCount` (delays `rd·1, …, rd·(maxRetries-1)`) and
emits no terminal event. -/
theorem retry_attempt_bound (mr rd : Nat) (h : 1 ≤ mr) :
    (Retry.failingRun mr rd).attempts = mr ∧
    (Retry.failingRun mr rd).errorEvents = 1 ∧
    (Retry.failingRun mr rd).delays =
      (List.range' 1 (mr - 1)).map (fun k => rd * k) ∧
    (Retry.failingRun mr rd).final = ⟨mr, TaskStatus.failed⟩ := by
  have hs := failingRunAux_spec mr rd (mr + 1) 0 TaskStatus.processing
    (by omega) (by omega)
  rw [Retry.failingRun, hs]
  refine ⟨by simp, rfl, ?_, rfl⟩
  simp

/-- Witness for `retry_attempt_bound` at the default configuration
(`maxRetries = 3`, `retryDelay = 1000`): 3 attempts, one error event,
backoff delays 1000 then 2000. -/
theorem retry_attempt_bound_witness :
    (Retry.failingRun 3 1000).errorEvents = 1 ∧
    (Retry.failingRun 3 1000).delays = [1000, 2000] := by
  refine ⟨(retry_attempt_bound 3 1000 (by decide)).2.1, ?_⟩
  rw [(retry_attempt_bound 3 1000 (by decide)).2.2.1]
  decide

/-! ## Theorems: queue scheduling, worker exclusivity, cancellation -/

theorem getAvailableWorker_free (s : Queue.QState) (k : Queue.WKind)
    (w : Queue.Slot) (s' : Queue.QState)
    (h : Queue.getAvailableWorker s k = (some w, s')) :
    w.busy = false ∧ s'.queue = s.queue ∧ s'.active = s.active := by
  unfold Queue.getAvailableWorker at h
  rcases hf : (Queue.poolOf s k).find? (fun w => !w.busy) with _ | w0
  · rw [hf] at h
    by_cases hlen : (Queue.poolOf s k).length < s.maxWorkers
    · rw [if_pos hlen] at h
      cases k <;>
        (simp [Queue.createWorker] at h; obtain ⟨h1, h2⟩ := h;
         rw [← h1, ← h2]; exact ⟨rfl, rfl, rfl⟩)
    · rw [if_neg hlen] at h
      cases h
  · rw [hf] at h
    injection h with h1 h2
    injection h1 with h1
    subst h1
    subst h2
    have hb := List.find?_some hf
    simp at hb
    exact ⟨hb, rfl, rfl⟩

theorem executeTask_slots (s : Queue.QState) (t : Queue.Task) (w : Queue.Slot)
    (sl : Queue.Slot)
    (h : sl ∈ (Queue.executeTask s t w).singlePool ∨
         sl ∈ (Queue.executeTask s t w).batchPool) :
    (sl.wid = w.wid → sl.busy = true ∧ sl.taskId = some t.id) ∧
    (sl.wid ≠ w.wid → sl ∈ s.singlePool ∨ sl ∈ s.batchPool) := by
  have h' : sl ∈ Queue.updateSlot s.singlePool w.wid
      (fun x => { x with busy := true, taskId := some t.id }) ∨
      sl ∈ Queue.updateSlot s.batchPool w.wid
      (fun x => { x with busy := true, taskId := some t.id }) := h
  rcases h' with h' | h' <;>
  · rw [Queue.updateSlot, List.mem_map] at h'
    obtain ⟨w0, hw0, heq⟩ := h'
    by_cases hww : w0.wid = w.wid
    · rw [if_pos (by simpa using hww)] at heq
      constructor
      · intro _
        rw [← heq]
        exact ⟨rfl, rfl⟩
      · intro hne
        exact absurd (by rw [← heq]; exact hww) hne
    · rw [if_neg (by simpa using hww)] at heq
      subst heq
      constructor
      · intro hcontra
        exact absurd hcontra hww
      · intro _
        first
          | exact Or.inl hw0
          | exact Or.inr hw0

theorem releaseWorker_slots (s : Queue.QState) (tid : Nat) (t : Queue.Task)
    (wid : Nat) (h : Queue.activeLookup s.active tid = some (t, wid)) :
    (∀ sl, sl ∈ (Queue.releaseWorker s tid).singlePool ∨
        sl ∈ (Queue.releaseWorker s tid).batchPool →
      (sl.wid = wid → sl.busy = false ∧ sl.taskId = none) ∧
      (sl.wid ≠ wid → sl ∈ s.singlePool ∨ sl ∈ s.batchPool)) ∧
    Queue.activeLookup (Queue.releaseWorker s tid).active tid = none := by
  constructor
  · intro sl hsl
    have hsl' : sl ∈ Queue.updateSlot s.singlePool wid
        (fun x => { x with busy := false, taskId := none }) ∨
        sl ∈ Queue.updateSlot s.batchPool wid
        (fun x => { x with busy := false, taskId := none }) := by
      unfold Queue.releaseWorker at hsl
      rw [h] at hsl
      exact hsl
    rcases hsl' with h' | h' <;>
    · rw [Queue.updateSlot, List.mem_map] at h'
      obtain ⟨w0, hw0, heq⟩ := h'
      by_cases hww : w0.wid = wid
      · rw [if_pos (by simpa using hww)] at heq
        constructor
        · intro _
          rw [← heq]
          exact ⟨rfl, rfl⟩
        · intro hne
          exact absurd (by rw [← heq]; exact hww) hne
      · rw [if_neg (by simpa using hww)] at heq
        subst heq
        constructor
        · intro hcontra
          exact absurd hcontra hww
        · intro _
          first
            | exact Or.inl hw0
            | exact Or.inr hw0
  · show Queue.activeLookup (Queue.releaseWorker s tid).active tid = none
    have hact : (Queue.releaseWorker s tid).active =
        Queue.activeDelete s.active tid := by
      unfold Queue.releaseWorker
      rw [h]
      rfl
    rw [hact]
    apply List.find?_eq_none.mpr
    intro e he
    have := List.of_mem_filter he
    simp at this ⊢
    exact this

theorem executeTask_queue (s : Queue.QState) (t : Queue.Task) (w : Queue.Slot) :
    (Queue.executeTask s t w).queue = s.queue := rfl

theorem getAvailableWorker_none (s : Queue.QState) (k : Queue.WKind)
    (s2 : Queue.QState)
    (h : Queue.getAvailableWorker s k = (none, s2)) : s2 = s := by
  unfold Queue.getAvailableWorker at h
  rcases hf : (Queue.poolOf s k).find? (fun w => !w.busy) with _ | w0
  · rw [hf] at h
    by_cases hlen : (Queue.poolOf s k).length < s.maxWorkers
    · rw [if_pos hlen] at h
      cases k <;> simp [Queue.createWorker] at h
    · rw [if_neg hlen] at h
      exact ((Prod.mk.injEq .. ▸ h).2).symm
  · rw [hf] at h
    cases h

/-- The `processQueue` loop dispatches a prefix of the pending queue, leaves
the rest pending, and every dispatch goes to a worker slot whose `busy` flag
is false at dispatch time. -/
theorem processQueueAux_spec : ∀ (fuel : Nat) (s : Queue.QState),
    s.queue = ((Queue.processQueueAux fuel s).2.map Prod.fst) ++
      (Queue.processQueueAux fuel s).1.queue ∧
    ∀ d ∈ (Queue.processQueueAux fuel s).2, d.2.busy = false := by
  intro fuel
  induction fuel with
  | zero =>
    intro s
    exact ⟨rfl, by intro d hd; simp [Queue.processQueueAux] at hd⟩
  | succ n ih =>
    intro s
    by_cases hcond : 0 < s.queue.length ∧ s.active.length < s.maxConcurrent ∧
        ¬s.isPaused ∧ ¬s.isDestroyed
    · rcases hq : s.queue with _ | ⟨t, rest⟩
      · rw [hq] at hcond
        simp at hcond
      · rcases hga : Queue.getAvailableWorker { s with queue := rest } t.kind
          with ⟨ow, s2⟩
        rcases ow with _ | w
        · have hrw : Queue.processQueueAux (n + 1) s =
              ({ s2 with queue := t :: s2.queue }, []) := by
            conv_lhs => rw [Queue.processQueueAux]
            rw [if_pos hcond, hq]
            dsimp only
            rw [hga]
          have hs2 : s2 = { s with queue := rest } :=
            getAvailableWorker_none _ _ _ hga
          rw [hrw]
          refine ⟨?_, by intro d hd; simp at hd⟩
          show t :: rest = [] ++ (t :: s2.queue)
          simp [hs2]
        · have hrw : Queue.processQueueAux (n + 1) s =
              ((Queue.processQueueAux n (Queue.executeTask s2 t w)).1,
               (t, w) :: (Queue.processQueueAux n (Queue.executeTask s2 t w)).2) := by
            conv_lhs => rw [Queue.processQueueAux]
            rw [if_pos hcond, hq]
            dsimp only
            rw [hga]
          obtain ⟨hbusy, hq2, _⟩ :=
            getAvailableWorker_free { s with queue := rest } t.kind w s2 hga
          obtain ⟨ihsplit, ihbusy⟩ := ih (Queue.executeTask s2 t w)
          rw [hrw]
          constructor
          · have hq3 : (Queue.executeTask s2 t w).queue = rest := by
              rw [executeTask_queue, hq2]
            rw [hq3] at ihsplit
            simp only [List.map_cons, List.cons_append]
            exact congrArg _ ihsplit
          · intro d hd
            rcases List.mem_cons.mp hd with rfl | hd
            · exact hbusy
            · exact ihbusy d hd
    · rw [Queue.processQueueAux, if_neg hcond]
      exact ⟨rfl, by intro d hd; simp at hd⟩

/-- C2: every worker dispatch targets a slot whose `busy` flag is false at
dispatch time (`getAvailableWorker` only returns free or freshly created
slots, and the scheduling loop never hands two tasks to one slot); dispatch
sets `busy := true` and records the task id, leaving all other slots
untouched; release sets `busy := false`, clears the id and removes the
active entry, leaving all other slots untouched.  Hence a slot's `busy` flag
strictly alternates between dispatch and release. -/
theorem worker_slot_exclusivity :
    (∀ (s : Queue.QState) (k : Queue.WKind) (w : Queue.Slot) (s' : Queue.QState),
      Queue.getAvailableWorker s k = (some w, s') → w.busy = false) ∧
    (∀ (s : Queue.QState) (t : Queue.Task) (w : Queue.Slot) (sl : Queue.Slot),
      sl ∈ (Queue.executeTask s t w).singlePool ∨
        sl ∈ (Queue.executeTask s t w).batchPool →
      (sl.wid = w.wid → sl.busy = true ∧ sl.taskId = some t.id) ∧
      (sl.wid ≠ w.wid → sl ∈ s.singlePool ∨ sl ∈ s.batchPool)) ∧
    (∀ (s : Queue.QState) (tid : Nat) (t : Queue.Task) (wid : Nat),
      Queue.activeLookup s.active tid = some (t, wid) →
      (∀ sl, sl ∈ (Queue.releaseWorker s tid).singlePool ∨
          sl ∈ (Queue.releaseWorker s tid).batchPool →
        (sl.wid = wid → sl.busy = false ∧ sl.taskId = none) ∧
        (sl.wid ≠ wid → sl ∈ s.singlePool ∨ sl ∈ s.batchPool)) ∧
      Queue.activeLookup (Queue.releaseWorker s tid).active tid = none) ∧
    (∀ (fuel : Nat) (s : Queue.QState),
      ∀ d ∈ (Queue.processQueueAux fuel s).2, d.2.busy = false) :=
  ⟨fun s k w s' h => (getAvailableWorker_free s k w s' h).1,
   executeTask_slots,
   releaseWorker_slots,
   fun fuel s => (processQueueAux_spec fuel s).2⟩

/-- Witness for `worker_slot_exclusivity`: on the freshly constructed queue,
the first single worker handed out is slot 0, not busy. -/
theorem worker_slot_exclusivity_witness :
    (⟨0, Queue.WKind.single, false, none⟩ : Queue.Slot).busy = false :=
  worker_slot_exclusivity.1 Queue.initQ Queue.WKind.single
    ⟨0, Queue.WKind.single, false, none⟩ Queue.initQ (by decide)

theorem eraseP_id_not_mem (q : List Queue.Task) (tid : Nat)
    (h : (q.map Queue.Task.id).Nodup) :
    tid ∉ (q.eraseP (fun t => t.id == tid)).map Queue.Task.id := by
  induction q with
  | nil => simp
  | cons t q ih =>
    simp only [List.map_cons, List.nodup_cons] at h
    by_cases ht : t.id = tid
    · rw [List.eraseP_cons_of_pos (by simpa using ht)]
      intro hmem
      exact h.1 (by rw [ht]; exact hmem)
    · rw [List.eraseP_cons_of_neg (by simpa using ht)]
      simp only [List.map_cons, List.mem_cons]
      rintro (h1 | h1)
      · exact ht h1.symm
      · exact ih h.2 h1

/-- C3: `cancelTask` on a still-queued task returns true, removes it and
synchronously emits the `cancelled` event — and since every dispatch comes
from the pending queue, the removed task can never reach Running; on an
active (running) task it returns true and posts the matching cancel command
to the assigned worker, changing no state; on an unknown or already terminal
task (in neither the queue nor the active map) it returns false with no
event or command. -/
theorem cancelTask_spec (s : Queue.QState) (tid : Nat) :
    ((∃ t ∈ s.queue, t.id = tid) →
      (Queue.cancelTask s tid).1 = true ∧
      (Queue.cancelTask s tid).2.2.1 = [Queue.Ev.cancelled tid] ∧
      (Queue.cancelTask s tid).2.1.queue =
        s.queue.eraseP (fun t => t.id == tid) ∧
      (Queue.cancelTask s tid).2.2.2 = [] ∧
      ((s.queue.map Queue.Task.id).Nodup →
        tid ∉ (Queue.cancelTask s tid).2.1.queue.map Queue.Task.id)) ∧
    ((∀ t ∈ s.queue, t.id ≠ tid) →
      ∀ t wid, Queue.activeLookup s.active tid = some (t, wid) →
      (Queue.cancelTask s tid).1 = true ∧
      (Queue.cancelTask s tid).2.1 = s ∧
      (Queue.cancelTask s tid).2.2.1 = [] ∧
      (Queue.cancelTask s tid).2.2.2 = [(wid, t.kind)]) ∧
    ((∀ t ∈ s.queue, t.id ≠ tid) →
      Queue.activeLookup s.active tid = none →
      (Queue.cancelTask s tid).1 = false ∧
      (Queue.cancelTask s tid).2.1 = s ∧
      (Queue.cancelTask s tid).2.2.1 = [] ∧
      (Queue.cancelTask s tid).2.2.2 = []) ∧
    (∀ (fuel : Nat) (s' : Queue.QState),
      ∀ d ∈ (Queue.processQueueAux fuel s').2, d.1 ∈ s'.queue) := by
  refine ⟨?_, ?_, ?_, ?_⟩
  · intro hex
    have hfind : (s.queue.find? (fun t => t.id == tid)).isSome = true := by
      obtain ⟨t, ht, hid⟩ := hex
      rcases hf : s.queue.find? (fun t => t.id == tid) with _ | u
      · have := List.find?_eq_none.mp hf t ht
        simp [hid] at this
      · rw [hf]
        rfl
    unfold Queue.cancelTask
    rw [if_pos hfind]
    refine ⟨rfl, rfl, rfl, rfl, ?_⟩
    intro hnd
    exact eraseP_id_not_mem s.queue tid hnd
  · intro hnone t wid hact
    have hfind : (s.queue.find? (fun t => t.id == tid)).isSome = false := by
      rw [List.find?_eq_none.mpr]
      · rfl
      · intro u hu
        simp [hnone u hu]
    unfold Queue.cancelTask
    rw [if_neg (by rw [hfind]; decide), hact]
    exact ⟨rfl, rfl, rfl, rfl⟩
  · intro hnone hact
    have hfind : (s.queue.find? (fun t => t.id == tid)).isSome = false := by
      rw [List.find?_eq_none.mpr]
      · rfl
      · intro u hu
        simp [hnone u hu]
    unfold Queue.cancelTask
    rw [if_neg (by rw [hfind]; decide), hact]
    exact ⟨rfl, rfl, rfl, rfl⟩
  · intro fuel s' d hd
    have hsplit := (processQueueAux_spec fuel s').1
    rw [hsplit]
    exact List.mem_append_left _ (List.mem_map_of_mem Prod.fst hd)

/-- Witness for `cancelTask_spec`: cancelling the only queued task returns
true. -/
theorem cancelTask_spec_witness :
    (Queue.cancelTask
      ⟨2, 4, 3, 1000, [⟨7, Queue.WKind.single, 0, 0, 0, TaskStatus.queued⟩],
       [], [], [], false, false, 0, 8⟩ 7).1 = true :=
  ((cancelTask_spec
      ⟨2, 4, 3, 1000, [⟨7, Queue.WKind.single, 0, 0, 0, TaskStatus.queued⟩],
       [], [], [], false, false, 0, 8⟩ 7).1
    ⟨⟨7, Queue.WKind.single, 0, 0, 0, TaskStatus.queued⟩, by decide, rfl⟩).1

/-- C5: the claim says exactly one terminal event follows the progress
events.  Refuted: when the cancel command is processed while the batch
worker awaits file 0's loading delay, the unguarded progress update after
that delay is posted AFTER the terminal `batch-cancelled` message, so the
stream is not progress-then-one-terminal. -/
theorem C5_counterexample :
    BatchWorker.batchRun [true, true] (some (0, 1)) =
      [BatchWorker.BMsg.progress 0 none Stage.initializing,
       BatchWorker.BMsg.progress 0 (some 0) Stage.loading,
       BatchWorker.BMsg.batchCancelled [] [],
       BatchWorker.BMsg.progress 10 (some 0) Stage.loading] ∧
    BatchWorker.progressThenOneTerminal
      (BatchWorker.batchRun [true, true] (some (0, 1))) = false := by
  constructor
  · norm_num [BatchWorker.batchRun, BatchWorker.runFiles, BatchWorker.isCancelAt,
      BatchWorker.cancelMsgs, BatchWorker.calculateBatchProgress]
  · rfl

/-- C5 (amended): percent sequences are non-decreasing for single and batch
conversions under every schedule; without cancellation each stream is
progress messages followed by exactly one terminal message; with a cancel
command processed mid-run, the single worker posts exactly two terminal
messages (the typed cancelled acknowledgment, then the cancelled/error
result) with no progress after them, while the batch worker posts exactly
one terminal `batch-cancelled` which may be followed by at most two further
progress messages from the file already in flight. -/
theorem progress_stream_spec :
    (∀ (d : Bool) (ts : List Nat) (c : Option Nat), ts.Chain' (· ≤ ·) →
      (SingleWorker.percents (SingleWorker.singleRun d ts c)).Chain' (· ≤ ·)) ∧
    (∀ (d : Bool) (ts : List Nat),
      ∃ ps, SingleWorker.singleRun d ts none =
          ps ++ [SingleWorker.Msg.result d false] ∧
        SingleWorker.countTerminal ps = 0) ∧
    (∀ (d : Bool) (ts : List Nat) (c : Option Nat),
      c = some 1 ∨ c = some 2 ∨ ((c = some 3 ∨ c = some 4) ∧ d = true) →
      ∃ ps b, SingleWorker.singleRun d ts c =
          ps ++ [SingleWorker.Msg.typedCancelled,
                 SingleWorker.Msg.result false b] ∧
        SingleWorker.countTerminal ps = 0) ∧
    (∀ (outs : List Bool) (ca : Option (Nat × Nat)),
      (BatchWorker.bPercents (BatchWorker.batchRun outs ca)).Chain' (· ≤ ·)) ∧
    (∀ outs : List Bool,
      BatchWorker.progressThenOneTerminal (BatchWorker.batchRun outs none) = true) ∧
    (∀ (outs : List Bool) (c sp : Nat), c < outs.length →
      ∃ pre post,
        BatchWorker.batchRun outs (some (c, sp)) =
          pre ++ BatchWorker.BMsg.batchCancelled
              (BatchWorker.runFiles outs.length none (outs.take c) 0 [] []).2.1
              (BatchWorker.runFiles outs.length none (outs.take c) 0 [] []).2.2.1
            :: post ∧
        (∀ m ∈ pre, BatchWorker.bIsTerminal m = false) ∧
        (∀ m ∈ post, BatchWorker.bIsTerminal m = false) ∧ post.length ≤ 2) :=
  ⟨single_percents_chain, singleRun_nocancel, singleRun_cancel,
   batch_percents_chain, batchRun_nocancel,
   fun outs c sp hc => by
     obtain ⟨pre, post, h1, h2, h3, h4, _⟩ := batchRun_cancel outs c sp hc
     exact ⟨pre, post, h1, h2, h3, h4⟩⟩

/-- Witness for `progress_stream_spec` at concrete inputs: a successful run
with two interval fires is monotone, and an uncancelled two-file batch is
progress-then-one-terminal. -/
theorem progress_stream_spec_witness :
    (SingleWorker.percents
      (SingleWorker.singleRun true [100, 250] none)).Chain' (· ≤ ·) ∧
    BatchWorker.progressThenOneTerminal
      (BatchWorker.batchRun [true, false] none) = true :=
  ⟨progress_stream_spec.1 true [100, 250] none (by norm_num [List.chain'_cons]),
   progress_stream_spec.2.2.2.2.1 [true, false]⟩

/-- C9: a batch cancelled while files remain starts no file beyond the one
in flight when the cancellation is observed, and the terminal
`batch-cancelled` message reports exactly the results and errors an
uncancelled run over the files before it would have gathered. -/
theorem batch_cancel_partial_results (outs : List Bool) (c sp : Nat)
    (hc : c < outs.length) :
    (∀ j ∈ BatchWorker.startedFiles
        (BatchWorker.batchRun outs (some (c, sp))), j ≤ c) ∧
    ∃ pre post,
      BatchWorker.batchRun outs (some (c, sp)) =
        pre ++ BatchWorker.BMsg.batchCancelled
            (BatchWorker.runFiles outs.length none (outs.take c) 0 [] []).2.1
            (BatchWorker.runFiles outs.length none (outs.take c) 0 [] []).2.2.1
          :: post ∧
      (∀ m ∈ pre, BatchWorker.bIsTerminal m = false) ∧
      (∀ m ∈ post, BatchWorker.bIsTerminal m = false) := by
  obtain ⟨pre, post, h1, h2, h3, _, h5⟩ := batchRun_cancel outs c sp hc
  exact ⟨h5, pre, post, h1, h2, h3⟩

/-- Witness for `batch_cancel_partial_results`: four files with file 1
failing, cancelled during file 2 — file 2 does start (it is in flight), and
the bound says no file beyond index 2 does. -/
theorem batch_cancel_partial_results_witness : (2 : Nat) ≤ 2 :=
  (batch_cancel_partial_results [true, false, true, true] 2 1
    (by decide)).1 2 (by decide)

/-! ## Theorems: scheduling order (C4) -/

theorem insertDesc_front (t : Queue.Task) (q : List Queue.Task)
    (h : ∀ u ∈ q, ¬ t.priority < u.priority) :
    Queue.insertDesc t q = t :: q := by
  cases q with
  | nil => rfl
  | cons x rest =>
    rw [Queue.insertDesc, if_neg (h x (List.mem_cons_self x rest))]

theorem insertNewest_front (t : Queue.Task) (q : List Queue.Task)
    (h : ∀ u ∈ q, u.priority < t.priority) :
    Queue.insertNewest t q = t :: q := by
  cases q with
  | nil => rfl
  | cons x rest =>
    rw [Queue.insertNewest, if_pos (h x (List.mem_cons_self x rest))]

theorem mem_insertNewest {u t : Queue.Task} {q : List Queue.Task} :
    u ∈ Queue.insertNewest t q ↔ u = t ∨ u ∈ q := by
  induction q with
  | nil => simp [Queue.insertNewest]
  | cons x rest ih =>
    rw [Queue.insertNewest]
    by_cases hx : x.priority < t.priority
    · rw [if_pos hx]
      simp only [List.mem_cons]
    · rw [if_neg hx]
      simp only [List.mem_cons, ih]
      tauto

theorem sortByPriorityDesc_append_newest (t : Queue.Task) :
    ∀ q : List Queue.Task,
    q.Pairwise (fun a b => b.priority ≤ a.priority) →
    Queue.sortByPriorityDesc (q ++ [t]) = Queue.insertNewest t q := by
  intro q
  induction q with
  | nil => intro _; rfl
  | cons x q' ih =>
    intro h
    rw [List.pairwise_cons] at h
    have hstep : Queue.sortByPriorityDesc ((x :: q') ++ [t]) =
        Queue.insertDesc x (Queue.insertNewest t q') := by
      show Queue.insertDesc x (Queue.sortByPriorityDesc (q' ++ [t])) =
        Queue.insertDesc x (Queue.insertNewest t q')
      rw [ih h.2]
    rw [hstep]
    by_cases hx : x.priority < t.priority
    · rw [Queue.insertNewest, if_pos hx]
      have hq' : Queue.insertNewest t q' = t :: q' :=
        insertNewest_front t q' (fun u hu => lt_of_le_of_lt (h.1 u hu) hx)
      rw [hq', Queue.insertDesc, if_pos hx,
        insertDesc_front x q' (fun u hu => not_lt.mpr (h.1 u hu))]
    · rw [Queue.insertNewest, if_neg hx]
      refine insertDesc_front x _ (fun u hu => ?_)
      rcases mem_insertNewest.mp hu with rfl | hu'
      · exact hx
      · exact not_lt.mpr (h.1 u hu')

theorem insertNewest_sorted (t : Queue.Task) :
    ∀ q : List Queue.Task, Queue.queueSortedOK q →
    (∀ u ∈ q, u.seq ≤ t.seq) →
    Queue.queueSortedOK (Queue.insertNewest t q) := by
  intro q
  induction q with
  | nil =>
    intro _ _
    exact List.pairwise_singleton _ _
  | cons x q' ih =>
    intro hs hseq
    have hs' := List.pairwise_cons.mp hs
    rw [Queue.insertNewest]
    by_cases hx : x.priority < t.priority
    · rw [if_pos hx]
      refine List.Pairwise.cons ?_ hs
      intro u hu
      rcases List.mem_cons.mp hu with rfl | hu'
      · exact ⟨le_of_lt hx, fun he => absurd he (ne_of_gt hx)⟩
      · have h1 := (hs'.1 u hu').1
        exact ⟨le_of_lt (lt_of_le_of_lt h1 hx),
          fun he => absurd he (ne_of_gt (lt_of_le_of_lt h1 hx))⟩
    · rw [if_neg hx]
      refine List.Pairwise.cons ?_
        (ih hs'.2 (fun u hu => hseq u (List.mem_cons_of_mem x hu)))
      intro u hu
      rcases mem_insertNewest.mp hu with rfl | hu'
      · exact ⟨not_lt.mp hx, fun _ => hseq x (List.mem_cons_self x q')⟩
      · exact hs'.1 u hu'

/-- C4: the claim says the scheduler always dispatches a pending task of
maximal priority, with ties broken by submission order.  Refuted by the
retry path: `handleTaskError` requeues a retried task with `unshift` at the
queue FRONT without re-sorting, so in `prioInversionRun` the retried task 0
(priority 0) is dispatched before the still-pending task 2 (priority 5),
although 5 is strictly greater than 0. -/
theorem C4_counterexample :
    (Queue.prioInversionRun.2.map (fun d => (d.1.id, d.1.priority))) =
      [(0, 0), (2, 5)] ∧
    ¬ ((5 : Int) ≤ (0 : Int)) := by decide

/-- C4 (amended): as long as every enqueue goes through `addFile` (which
re-sorts stably by descending priority), the pending queue satisfies the
priority order and the scheduler consumes it front-first, so the dispatched
tasks dominate every task left pending (higher priority, or equal priority
and submitted no later), the dispatched sequence itself is in priority
order, and the sorted-queue invariant is preserved by a new submission; the
guarantee does NOT survive a retry requeue, which bypasses the sort
(`C4_counterexample`). -/
theorem schedule_priority_order (s : Queue.QState)
    (hs : Queue.queueSortedOK s.queue) :
    (s.queue = ((Queue.processQueue s).2.map Prod.fst) ++
        (Queue.processQueue s).1.queue ∧
      ∀ d ∈ (Queue.processQueue s).2, ∀ u ∈ (Queue.processQueue s).1.queue,
        u.priority ≤ d.1.priority ∧
          (d.1.priority = u.priority → d.1.seq ≤ u.seq)) ∧
    ((Queue.processQueue s).2.map Prod.fst).Pairwise (fun a b =>
        b.priority ≤ a.priority ∧ (a.priority = b.priority → a.seq ≤ b.seq)) ∧
    ∀ (pr : Int) (k : Queue.WKind), (∀ u ∈ s.queue, u.seq ≤ s.nextTaskId) →
      Queue.queueSortedOK (Queue.sortByPriorityDesc (s.queue ++
        [{ id := s.nextTaskId, kind := k, priority := pr, seq := s.nextTaskId,
           retries := 0, status := TaskStatus.queued }])) := by
  have hsplit : s.queue = ((Queue.processQueue s).2.map Prod.fst) ++
      (Queue.processQueue s).1.queue :=
    (processQueueAux_spec s.queue.length s).1
  have hpw : (((Queue.processQueue s).2.map Prod.fst) ++
      (Queue.processQueue s).1.queue).Pairwise (fun a b =>
        b.priority ≤ a.priority ∧ (a.priority = b.priority → a.seq ≤ b.seq)) :=
    hsplit ▸ hs
  rcases List.pairwise_append.mp hpw with ⟨h1, _, h3⟩
  refine ⟨⟨hsplit, ?_⟩, h1, ?_⟩
  · intro d hd u hu
    exact h3 d.1 (List.mem_map_of_mem Prod.fst hd) u hu
  · intro pr k hseq
    rw [sortByPriorityDesc_append_newest _ s.queue
      (List.Pairwise.imp (fun h => h.1) hs)]
    exact insertNewest_sorted _ s.queue hs hseq

/-- Witness for `schedule_priority_order`: on `demoSorted` (two queued
tasks, priorities 5 then 3) the dispatched prefix plus the remaining queue
is exactly the original queue. -/
theorem schedule_priority_order_witness :
    Queue.demoSorted.queue =
      ((Queue.processQueue Queue.demoSorted).2.map Prod.fst) ++
        (Queue.processQueue Queue.demoSorted).1.queue :=
  ((schedule_priority_order Queue.demoSorted
    (by unfold Queue.queueSortedOK; decide)).1).1

end HeicConv
